import Mathlib

/-!
# Towers of Hanoi puzzle engine (BaseGameScene.jsx)

A shallow embedding of the game state held by the `BaseGameScene` React
component and of its event handlers and effects, followed by theorems about
the reachable states of a started game.

Pegs are lists written bottom-first, as the JavaScript arrays are: the last
element of a peg is its top disk.
-/

namespace Hanoi

/-! ## Data model -/

/-- A disk object as built by `generateDisks`: `{ id, size, pillarIndex, texture }`. -/
structure Disk where
  id : Nat
  size : ℚ
  pillarIndex : Fin 3
  texture : String
deriving DecidableEq

/-- The `pillars` array: always three pegs, indexed 0..2. -/
structure Board where
  peg0 : List Disk
  peg1 : List Disk
  peg2 : List Disk
deriving DecidableEq

/-- Indexing: `pillars[i]`. -/
def Board.get (b : Board) (i : Fin 3) : List Disk :=
  match i with
  | 0 => b.peg0
  | 1 => b.peg1
  | 2 => b.peg2

/-- Assignment into the copied array: `newPillars[i] = peg`. -/
def Board.set (b : Board) (i : Fin 3) (peg : List Disk) : Board :=
  match i with
  | 0 => { b with peg0 := peg }
  | 1 => { b with peg1 := peg }
  | 2 => { b with peg2 := peg }

/-- All disks of a board, peg after peg. -/
def Board.disks (b : Board) : List Disk := b.peg0 ++ b.peg1 ++ b.peg2

/-- The React state of `BaseGameScene` (one field per `useState`) together with
the `isTimedMode` prop. -/
structure GameState where
  isTimedMode : Bool
  numDisks : Nat
  selectedDisk : Option Disk
  moveCount : Int
  pillars : Board
  timer : Int
  history : List Board
  future : List Board
  isGameStarted : Bool
  isVictory : Bool
  timeLimit : Int
  timeLeft : Int
  timeOut : Bool
deriving DecidableEq

/-! ## Disk generation -/

/-- The table `defaultDiskSizes = [3, 2.5, 2, 1.5, 1, 0.8, 0.6]`. Sizes are only
ever compared; each decimal literal is written as the rational it denotes
(`2.5` is `mkRat 25 10`), which evaluates by computation. -/
def defaultDiskSizes : List ℚ :=
  [3, mkRat 25 10, 2, mkRat 15 10, 1, mkRat 8 10, mkRat 6 10]

/-- The table `adjustedDiskSizes = [4, 3.5, 3, 2.5, 2, 1.5, 1]`. -/
def adjustedDiskSizes : List ℚ :=
  [4, mkRat 35 10, 3, mkRat 25 10, 2, mkRat 15 10, 1]

/-- The size table in use: `numDisks >= 5 ? adjustedDiskSizes : defaultDiskSizes`. -/
def diskSizes (numDisks : Nat) : List ℚ :=
  if numDisks ≥ 5 then adjustedDiskSizes else defaultDiskSizes

def texturePaths : List String :=
  [ "/textures/Runic_Textures_1.png",
    "/textures/Runic_Textures_2.png",
    "/textures/Runic_Textures_3.png",
    "/textures/Runic_Textures_4.png" ]

/-- The function `generateDisks(count)`, in a render whose state has `numDisks`:
`diskSizes.slice(0, count).map((size, index) => ...)`. -/
def generateDisks (numDisks count : Nat) : List Disk :=
  (((diskSizes numDisks).take count).enum).map fun p =>
    { id := p.1
      size := p.2
      pillarIndex := 0
      texture := texturePaths.getD (p.1 % texturePaths.length) "" }

/-! ## Handlers -/

/-- The handler `handleDiskClick(disk)`: select the disk when it is the top of
the peg named by its `pillarIndex`. -/
def handleDiskClick (disk : Disk) (s : GameState) : GameState :=
  let pillar := s.pillars.get disk.pillarIndex
  match pillar.getLast? with
  | some top => if top.id = disk.id then { s with selectedDisk := some disk } else s
  | none => s

/-- The handler `handlePillarClick(pillarIndex)`. -/
def handlePillarClick (pillarIndex : Fin 3) (s : GameState) : GameState :=
  match s.selectedDisk with
  | none => s
  | some selectedDisk =>
    let sourcePillarIndex := selectedDisk.pillarIndex
    if sourcePillarIndex = pillarIndex then
      { s with selectedDisk := none }
    else
      let targetPillar := s.pillars.get pillarIndex
      if targetPillar.length = 0 ∨
          (∃ top ∈ targetPillar.getLast?, top.size > selectedDisk.size) then
        let newPillars := s.pillars
        let newPillars := newPillars.set sourcePillarIndex
          ((newPillars.get sourcePillarIndex).filter fun d => d.id ≠ selectedDisk.id)
        let newPillars := newPillars.set pillarIndex
          (newPillars.get pillarIndex ++ [{ selectedDisk with pillarIndex := pillarIndex }])
        { s with
          history := s.history ++ [s.pillars]
          future := []
          pillars := newPillars
          selectedDisk := none
          moveCount := s.moveCount + 1 }
      else
        { s with selectedDisk := none }

/-- The handler `handleUndo()` (state updates only; the sound effects are not modelled). -/
def handleUndo (s : GameState) : GameState :=
  match s.history.getLast? with
  | some previousState =>
    { s with
      future := s.future ++ [s.pillars]
      pillars := previousState
      history := s.history.dropLast
      moveCount := s.moveCount - 1 }
  | none => s

/-- The handler `handleRedo()`. -/
def handleRedo (s : GameState) : GameState :=
  match s.future.getLast? with
  | some nextState =>
    { s with
      history := s.history ++ [s.pillars]
      pillars := nextState
      future := s.future.dropLast
      moveCount := s.moveCount + 1 }
  | none => s

/-- The handler `handleRetry()`. -/
def handleRetry (s : GameState) : GameState :=
  { s with
    isVictory := false
    isGameStarted := false
    timer := 0
    moveCount := 0
    selectedDisk := none
    history := []
    future := []
    timeOut := false }

/-! ## Effects -/

/-- The effect "Initialize game state when game starts", dependencies
`[numDisks, isGameStarted, timeLimit]`. -/
def initEffect (s : GameState) : GameState :=
  if s.isGameStarted then
    let newDisks := generateDisks s.numDisks s.numDisks
    { s with
      pillars := ⟨newDisks, [], []⟩
      moveCount := 0
      selectedDisk := none
      history := []
      future := []
      isVictory := false
      timeOut := false
      timer := 0
      timeLeft := s.timeLimit }
  else s

/-- The effect "Check for victory condition", dependencies `[pillars, numDisks]`:
`if (pillars[2].length === numDisks) setIsVictory(true)`. -/
def victoryEffect (s : GameState) : GameState :=
  if (s.pillars.get 2).length = s.numDisks then { s with isVictory := true } else s

/-- The init effect in the first commit after a handler: it re-runs when one of
its dependencies `[numDisks, isGameStarted, timeLimit]` differs from the
previous render (dependencies are compared by value). `prev` is the state of
the previous render and `next` the state produced by the handler. -/
def afterInitEffect (prev next : GameState) : GameState :=
  if next.numDisks ≠ prev.numDisks ∨ next.isGameStarted ≠ prev.isGameStarted ∨
      next.timeLimit ≠ prev.timeLimit then initEffect next else next

/-- The state after the first commit. Both effects see the state `next`: the
init effect (declared first) queues its updates, then the victory effect, when
`pillars` or `numDisks` changed, may queue `setIsVictory(true)`, which is
applied last. -/
def afterFirstCommit (prev next : GameState) : GameState :=
  if (next.pillars ≠ prev.pillars ∨ next.numDisks ≠ prev.numDisks) ∧
      (next.pillars.get 2).length = next.numDisks then
    { afterInitEffect prev next with isVictory := true }
  else afterInitEffect prev next

/-- The effects that React runs after a handler, until the state settles: the
first commit, and, if the init effect replaced `pillars`, the victory effect
once more on the new board. React compares the `pillars` array by reference;
the comparison by value used here differs only when the init effect installs a
board equal to the one it replaces, and then, for a disk count of at least 1,
the victory effect finds peg 2 empty and changes nothing. -/
def runEffects (prev next : GameState) : GameState :=
  if (afterFirstCommit prev next).pillars ≠ next.pillars then
    victoryEffect (afterFirstCommit prev next)
  else afterFirstCommit prev next

/-! ## Sessions -/

/-- The state of a freshly mounted component: the `useState` initial values. -/
def initialState (isTimedMode : Bool) : GameState :=
  { isTimedMode := isTimedMode
    numDisks := 3
    selectedDisk := none
    moveCount := 0
    pillars := ⟨[], [], []⟩
    timer := 0
    history := []
    future := []
    isGameStarted := false
    isVictory := false
    timeLimit := 60
    timeLeft := 60
    timeOut := false }

/-- The disk-count slider: `setNumDisks(Number(e.target.value))`, followed by
the effects of the next render. -/
def setNumDisks (n : Nat) (s : GameState) : GameState :=
  runEffects s { s with numDisks := n }

/-- The time-limit slider: `setTimeLimit(Number(e.target.value))`, followed by
the effects of the next render. -/
def setTimeLimit (limit : Int) (s : GameState) : GameState :=
  runEffects s { s with timeLimit := limit }

/-- The "Start Game" button: `setIsGameStarted(true)`, followed by the effects
of the next render. -/
def startGame (s : GameState) : GameState :=
  runEffects s { s with isGameStarted := true }

/-- A started game with `n` disks and time limit `limit`: the component is
mounted, both sliders are set and "Start Game" is pressed. -/
def newGame (isTimedMode : Bool) (n : Nat) (limit : Int) : GameState :=
  startGame (setTimeLimit limit (setNumDisks n (initialState isTimedMode)))

/-- The user events of a running game. -/
inductive Action where
  | diskClick (disk : Disk)
  | pillarClick (pillarIndex : Fin 3)
  | undo
  | redo
deriving DecidableEq

/-- The handler that an event invokes. -/
def handler (s : GameState) : Action → GameState
  | .diskClick disk => handleDiskClick disk s
  | .pillarClick pillarIndex => handlePillarClick pillarIndex s
  | .undo => handleUndo s
  | .redo => handleRedo s

/-- One event: the handler, then the effects of the render that follows. -/
def step (s : GameState) (a : Action) : GameState :=
  runEffects s (handler s a)

/-- An event the interface offers in state `s`. Disks are rendered from the
current `pillars` (only while the game is started), so a clicked disk is an
element of one of the current pegs; the Undo/Redo buttons are part of the
in-game panel. -/
def Action.enabled (s : GameState) : Action → Prop
  | .diskClick disk => s.isGameStarted = true ∧ disk ∈ s.pillars.disks
  | .pillarClick _ => True
  | .undo => s.isGameStarted = true
  | .redo => s.isGameStarted = true

instance Action.decEnabled (s : GameState) (a : Action) : Decidable (a.enabled s) := by
  cases a <;> unfold Action.enabled <;> infer_instance

/-- Run a sequence of events. -/
def run (s : GameState) : List Action → GameState
  | [] => s
  | a :: as => run (step s a) as

/-- Every event of the sequence is offered in the state it is applied to. -/
def validFrom (s : GameState) : List Action → Bool
  | [] => true
  | a :: as => decide (a.enabled s) && validFrom (step s a) as

/-- States reachable from a started game with `n` disks by disk clicks, pillar
clicks, undos and redos. -/
inductive Reachable (n : Nat) : GameState → Prop
  | start (isTimedMode : Bool) (limit : Int) : Reachable n (newGame isTimedMode n limit)
  | step {s : GameState} (a : Action) :
      Reachable n s → a.enabled s → Reachable n (step s a)

/-! ## Properties of boards and sessions -/

/-- Sizes strictly decrease from the bottom of the peg to its top: of any two
disks on the peg, the upper one is the smaller. -/
def pegSorted (peg : List Disk) : Prop :=
  peg.Pairwise fun lower upper => lower.size > upper.size

/-- Every peg of the board is strictly decreasing in size from bottom to top. -/
def Board.sorted (b : Board) : Prop :=
  ∀ i : Fin 3, pegSorted (b.get i)

/-- The disk ids of a board, peg after peg. -/
def Board.ids (b : Board) : List Nat := b.disks.map Disk.id

/-- The destination test of `handlePillarClick`: the peg is empty or its top
disk is strictly larger than `d`. -/
def canPlace (b : Board) (t : Fin 3) (d : Disk) : Prop :=
  (b.get t).length = 0 ∨ ∃ top ∈ (b.get t).getLast?, top.size > d.size

instance canPlace.dec (b : Board) (t : Fin 3) (d : Disk) : Decidable (canPlace b t d) := by
  unfold canPlace; infer_instance

/-- A click on pillar `t` is an accepted (legal) move in state `s`: a disk is
selected, its peg is not `t`, and it may be placed on `t`. -/
def moveAccepted (s : GameState) (t : Fin 3) : Prop :=
  ∃ d ∈ s.selectedDisk, d.pillarIndex ≠ t ∧ canPlace s.pillars t d

instance moveAccepted.dec (s : GameState) (t : Fin 3) : Decidable (moveAccepted s t) := by
  unfold moveAccepted; infer_instance

/-- The board built by an accepted move: `d` is filtered out of its source peg
and a copy with the new `pillarIndex` is appended to the target peg. -/
def movedBoard (b : Board) (d : Disk) (t : Fin 3) : Board :=
  let newPillars := b.set d.pillarIndex ((b.get d.pillarIndex).filter fun x => x.id ≠ d.id)
  newPillars.set t (newPillars.get t ++ [{ d with pillarIndex := t }])

/-- A property `P` of boards holds of the current board and of every snapshot
in History and Future, and a property `Q` of disks holds of the selected disk. -/
structure BoardInv (P : Board → Prop) (Q : Disk → Prop) (s : GameState) : Prop where
  cur : P s.pillars
  hist : ∀ b ∈ s.history, P b
  fut : ∀ b ∈ s.future, P b
  sel : ∀ d ∈ s.selectedDisk, Q d

/-- Disk `id` of an `n`-disk game as it is while it stands on peg `p`: the
object built by `generateDisks`, with `pillarIndex` set to `p`. -/
def diskOn (n id : Nat) (p : Fin 3) : Disk :=
  { id := id
    size := (diskSizes n).getD id 0
    pillarIndex := p
    texture := texturePaths.getD (id % texturePaths.length) "" }

/-- The number of disks with identity `id` on the board. -/
def Board.countId (b : Board) (id : Nat) : Nat := b.ids.count id

/-- The state after `k` consecutive undos followed by `k` consecutive redos. -/
def undoRedo (k : Nat) (s : GameState) : GameState :=
  (fun x => step x .redo)^[k] ((fun x => step x .undo)^[k] s)

/-- Two states agree on Board, History, Future and move counter. -/
def sameSession (a b : GameState) : Prop :=
  a.pillars = b.pillars ∧ a.history = b.history ∧ a.future = b.future ∧
    a.moveCount = b.moveCount

/-- The clicks of the seven-move solution of the 3-disk game: each move is a
click on the top disk of the source peg and a click on the destination pillar. -/
def solution3 : List Action :=
  [ .diskClick (diskOn 3 2 0), .pillarClick 2,
    .diskClick (diskOn 3 1 0), .pillarClick 1,
    .diskClick (diskOn 3 2 2), .pillarClick 1,
    .diskClick (diskOn 3 0 0), .pillarClick 2,
    .diskClick (diskOn 3 2 1), .pillarClick 0,
    .diskClick (diskOn 3 1 1), .pillarClick 2,
    .diskClick (diskOn 3 2 0), .pillarClick 2 ]

/-- A 3-disk game in which disk 2 (the smallest) is selected on peg 0. -/
def exampleSelected : GameState :=
  run (newGame false 3 60) [.diskClick (diskOn 3 2 0)]

/-- A 3-disk game with disk 0 on peg 0, disk 1 on peg 1 and disk 2 on peg 2,
in which disk 2 is selected. -/
def exampleSpread : GameState :=
  run (newGame false 3 60)
    [.diskClick (diskOn 3 2 0), .pillarClick 2, .diskClick (diskOn 3 1 0), .pillarClick 1,
      .diskClick (diskOn 3 2 2)]

/-- A 3-disk game with disk 2 on peg 2 and disk 1 (on top of peg 0) selected. -/
def exampleBlocked : GameState :=
  run (newGame false 3 60)
    [.diskClick (diskOn 3 2 0), .pillarClick 2, .diskClick (diskOn 3 1 0)]

/-- A 3-disk game after two moves and one undo: History and Future both hold
one board. -/
def exampleUndone : GameState :=
  run (newGame false 3 60)
    [.diskClick (diskOn 3 2 0), .pillarClick 2, .diskClick (diskOn 3 1 0), .pillarClick 1,
      .undo]

/-! ## Clock -/

/-- The two intervals of the component: the countdown of timed mode and the
elapsed-time timer. -/
inductive Tick where
  | countdown
  | elapsed
deriving DecidableEq

/-- The callback of the countdown interval, the updater passed to
`setTimeLeft`: at `prev <= 1` it sets `isVictory` and `timeOut` and returns 0,
otherwise it returns `prev - 1`. -/
def countdownCallback (s : GameState) : GameState :=
  if s.timeLeft ≤ 1 then
    { s with isVictory := true, timeOut := true, timeLeft := 0 }
  else
    { s with timeLeft := s.timeLeft - 1 }

/-- The callback of the game-timer interval: `setTimer(prev => prev + 1)`. -/
def timerCallback (s : GameState) : GameState :=
  { s with timer := s.timer + 1 }

/-- One firing of an interval that arrives right after a render of `s`,
followed by the effects of the next render. After a render an interval is set
exactly when the guard of the effect that creates it holds
(`if (!isGameStarted || !isTimedMode || isVictory) return;` for the countdown,
`if (isGameStarted && !isVictory)` for the game timer). The callbacks
themselves test nothing: a firing that arrives before the next render has
cleared its interval is described by `Clocked.fire`. -/
def tick (s : GameState) : Tick → GameState
  | .countdown =>
    if !s.isGameStarted || !s.isTimedMode || s.isVictory then s
    else runEffects s (countdownCallback s)
  | .elapsed =>
    if s.isGameStarted && !s.isVictory then runEffects s (timerCallback s)
    else s

/-- Any event of a session: a user event or the firing of an interval. -/
inductive Event where
  | user (a : Action)
  | clock (t : Tick)
deriving DecidableEq

/-- The state after one event. -/
def fire (s : GameState) : Event → GameState
  | .user a => step s a
  | .clock t => tick s t

/-- The state after a sequence of events. -/
def fireAll (s : GameState) : List Event → GameState
  | [] => s
  | e :: es => fireAll (fire s e) es

/-- The state after a sequence of interval firings. -/
def ticks (s : GameState) : List Tick → GameState
  | [] => s
  | t :: ts => ticks (tick s t) ts

/-! ## Moves as pairs of clicks -/

/-- A click on the top disk of peg `p`; nothing is rendered on an empty peg, so
there is no event then. -/
def clickTopDisk (s : GameState) (p : Fin 3) : GameState :=
  match (s.pillars.get p).getLast? with
  | some disk => step s (.diskClick disk)
  | none => s

/-- A move `(source, target)` as the player makes it: a click on the top disk
of the source peg followed by a click on the target pillar. -/
def playMove (s : GameState) (m : Fin 3 × Fin 3) : GameState :=
  step (clickTopDisk s m.1) (.pillarClick m.2)

/-- A sequence of moves, each made with `playMove`. -/
def playMoves (s : GameState) : List (Fin 3 × Fin 3) → GameState
  | [] => s
  | m :: ms => playMoves (playMove s m) ms

/-- Every move of the sequence is accepted by `handlePillarClick` in the state
in which its pillar click arrives. -/
def movesAccepted (s : GameState) : List (Fin 3 × Fin 3) → Bool
  | [] => true
  | m :: ms => decide (moveAccepted (clickTopDisk s m.1) m.2) && movesAccepted (playMove s m) ms

/-- The seven moves (0->2),(0->1),(2->1),(0->2),(1->0),(1->2),(0->2). -/
def solutionMoves3 : List (Fin 3 × Fin 3) :=
  [(0, 2), (0, 1), (2, 1), (0, 2), (1, 0), (1, 2), (0, 2)]

/-- The state `s` with another mode and time limit (and the countdown set to
that limit, as the init effect sets it). -/
def withConfig (isTimedMode : Bool) (limit : Int) (s : GameState) : GameState :=
  { s with isTimedMode := isTimedMode, timeLimit := limit, timeLeft := limit }

/-- Every disk of the board records the peg it stands on, and no peg holds a
disk id twice. -/
def Board.consistent (b : Board) : Prop :=
  ∀ p : Fin 3, (∀ d ∈ b.get p, d.pillarIndex = p) ∧ ((b.get p).map Disk.id).Nodup

/-- The solved 3-disk game: the state after the seven-move solution. -/
def exampleSolved : GameState :=
  run (newGame false 3 60) solution3

/-- A timed 3-disk game with a 5 second limit after five countdown firings
(with elapsed-timer firings in between): the session has timed out. -/
def exampleTimedOut : GameState :=
  ticks (newGame true 3 5)
    [.countdown, .elapsed, .countdown, .elapsed, .countdown, .elapsed, .countdown, .elapsed,
      .countdown]

/-! ## The whole scene -/

/-- The Undo button of the in-game panel: `disabled={history.length === 0}`. -/
def undoDisabled (s : GameState) : Bool := s.history.length == 0

/-- Every event of the game scene: the user events of a running game, the
Retry button of the victory banner, the two sliders and the Start button of
the start menu, and the firing of an interval. -/
inductive SceneEvent where
  | user (a : Action)
  | retry
  | diskSlider (n : Nat)
  | timeSlider (limit : Int)
  | start
  | clock (t : Tick)
deriving DecidableEq

/-- The state after one event of the scene: the handler, then the effects of
the render that follows. -/
def sceneStep (s : GameState) : SceneEvent → GameState
  | .user a => step s a
  | .retry => runEffects s (handleRetry s)
  | .diskSlider n => setNumDisks n s
  | .timeSlider limit => setTimeLimit limit s
  | .start => startGame s
  | .clock t => tick s t

/-- An event the scene offers in state `s`. The victory banner with its Retry
button is rendered while `isVictory`; the start menu with the sliders (disk
count 3..7; time limit 5..300 in steps of 5, timed mode only) and the Start
button is rendered while the game is not started. -/
def SceneEvent.enabled (s : GameState) : SceneEvent → Prop
  | .user a => a.enabled s
  | .retry => s.isVictory = true
  | .diskSlider n => s.isGameStarted = false ∧ 3 ≤ n ∧ n ≤ 7
  | .timeSlider limit =>
    s.isGameStarted = false ∧ s.isTimedMode = true ∧ 5 ≤ limit ∧ limit ≤ 300 ∧ limit % 5 = 0
  | .start => s.isGameStarted = false
  | .clock _ => True

instance SceneEvent.decEnabled (s : GameState) (e : SceneEvent) : Decidable (e.enabled s) := by
  cases e <;> unfold SceneEvent.enabled <;> infer_instance

/-- Run a sequence of scene events. -/
def sceneRun (s : GameState) : List SceneEvent → GameState
  | [] => s
  | e :: es => sceneRun (sceneStep s e) es

/-- Every event of the sequence is offered in the state it is applied to. -/
def sceneValid (s : GameState) : List SceneEvent → Bool
  | [] => true
  | e :: es => decide (e.enabled s) && sceneValid (sceneStep s e) es

/-- States of the scene reachable from the freshly mounted component. -/
inductive SceneReachable (isTimedMode : Bool) : GameState → Prop
  | mount : SceneReachable isTimedMode (initialState isTimedMode)
  | step {s : GameState} (e : SceneEvent) :
      SceneReachable isTimedMode s → e.enabled s → SceneReachable isTimedMode (sceneStep s e)

/-- The original stack of an `n`-disk game standing on peg `p`: disks
0..n-1 from bottom to top. -/
def fullStack (n : Nat) (p : Fin 3) : List Disk :=
  (List.range n).map fun i => diskOn n i p

/-- A sequence of clicks in a 3-disk game that uses two selections kept
across undos: disk 0 and then disk 1 are selected while they are on top and
moved after the undo has put the other disks back over them. -/
def shortcut3 : List Action :=
  [ .diskClick (diskOn 3 2 0), .pillarClick 1,
    .diskClick (diskOn 3 1 0), .pillarClick 2,
    .diskClick (diskOn 3 0 0), .undo, .undo, .pillarClick 2,
    .diskClick (diskOn 3 2 0), .pillarClick 1,
    .diskClick (diskOn 3 1 0), .undo, .pillarClick 2,
    .diskClick (diskOn 3 2 0), .pillarClick 2 ]

/-- The scene events of: start a 3-disk game, solve it in seven moves, press
Retry, move the disk slider to 4 and back to 3. -/
def retryThenSlider : List SceneEvent :=
  [.start] ++ solution3.map .user ++ [.retry, .diskSlider 4, .diskSlider 3]

/-! ## Leaderboard -/

/-- A score record `{ name, moves, time }`. -/
structure Score where
  name : String
  moves : Int
  time : Int
deriving DecidableEq

/-- The built-in records `dummyScores`. -/
def dummyScores : List Score :=
  [ { name := "Bruce The omnipotent", moves := 10, time := 28 },
    { name := "Ivar The bloody baron", moves := 20, time := 88 },
    { name := "Vandal The grey", moves := 25, time := 90 },
    { name := "Fergus The bold", moves := 30, time := 200 } ]

/-- The comparator `(a, b) => a.moves - b.moves || a.time - b.time`: the
difference of the moves unless it is 0, then the difference of the times. -/
def compareScores (a b : Score) : Int :=
  if a.moves - b.moves ≠ 0 then a.moves - b.moves else a.time - b.time

/-- The comparator does not put `b` before `a`: its value is not positive. -/
def scoreLe (a b : Score) : Prop := compareScores a b ≤ 0

instance scoreLe.dec : DecidableRel scoreLe := fun a b => by
  unfold scoreLe; infer_instance

/-- The order the leaderboard promises: fewer moves first, and for equal moves
the shorter time first. -/
def lexLe (a b : Score) : Prop :=
  a.moves < b.moves ∨ (a.moves = b.moves ∧ a.time ≤ b.time)

/-- The pool `allScores = [...savedScores, ...dummyScores]` after
`allScores.sort(comparator)`. `Array.prototype.sort` is a stable sort; for a
comparator that is a total preorder its result is the one stable sorted
arrangement, computed here by insertion. -/
def sortedScores (savedScores : List Score) : List Score :=
  (savedScores ++ dummyScores).insertionSort scoreLe

/-- The displayed scores: `allScores.slice(0, 10)`. -/
def leaderboard (savedScores : List Score) : List Score :=
  (sortedScores savedScores).take 10

/-- The records of the pool that are not displayed. -/
def omittedScores (savedScores : List Score) : List Score :=
  (sortedScores savedScores).drop 10

/-! ## Interval handles -/

/-- The guard of the countdown effect (line 258 returns early on its negation):
the effect sets the interval when the game is started, in timed mode and not
in the victory state. -/
def countdownGuard (s : GameState) : Bool :=
  !(!s.isGameStarted || !s.isTimedMode || s.isVictory)

/-- The guard of the game-timer effect: `if (isGameStarted && !isVictory)`. -/
def gameTimerGuard (s : GameState) : Bool :=
  s.isGameStarted && !s.isVictory

/-- The countdown effect at a render with state `cur` that follows a render
with state `prev`, dependencies `[isGameStarted, isTimedMode, isVictory]`. When
a dependency changed, the cleanup clears the interval and the effect sets a new
one if its guard passes; otherwise the handle stays as it is. The result tells
whether `timerIntervalRef` holds a live interval. -/
def countdownEffect (prev cur : GameState) (handle : Bool) : Bool :=
  if cur.isGameStarted ≠ prev.isGameStarted ∨ cur.isTimedMode ≠ prev.isTimedMode ∨
      cur.isVictory ≠ prev.isVictory then countdownGuard cur
  else handle

/-- The game-timer effect, dependencies `[isGameStarted, isVictory]`; the result
tells whether `gameTimerRef` holds a live interval. -/
def gameTimerEffect (prev cur : GameState) (handle : Bool) : Bool :=
  if cur.isGameStarted ≠ prev.isGameStarted ∨ cur.isVictory ≠ prev.isVictory then
    gameTimerGuard cur
  else handle

/-- The component between renders: the current state `game` (with the updates
of the callbacks that have run), the state `rendered` of the last render, and
the two interval handles. -/
structure Clocked where
  game : GameState
  rendered : GameState
  countdownSet : Bool
  gameTimerSet : Bool
deriving DecidableEq

/-- The component right after a render of `s` whose interval effects have run. -/
def Clocked.ofRendered (s : GameState) : Clocked :=
  { game := s
    rendered := s
    countdownSet := countdownGuard s
    gameTimerSet := gameTimerGuard s }

/-- A firing of an interval: nothing when the interval is cleared, otherwise the
callback, which tests no flag. At `prev <= 1` the countdown callback also
clears its own interval (`clearInterval(timerIntervalRef.current)`, line 263);
no callback clears the game-timer interval. -/
def Clocked.fire (c : Clocked) : Tick → Clocked
  | .countdown =>
    if c.countdownSet then
      { c with
        game := countdownCallback c.game
        countdownSet := if c.game.timeLeft ≤ 1 then false else true }
    else c
  | .elapsed =>
    if c.gameTimerSet then { c with game := timerCallback c.game } else c

/-- The render that follows the updates of interval callbacks, with its
effects: the state effects of `runEffects` and the two interval effects. -/
def Clocked.render (c : Clocked) : Clocked :=
  { game := runEffects c.rendered c.game
    rendered := runEffects c.rendered c.game
    countdownSet := countdownEffect c.rendered (runEffects c.rendered c.game) c.countdownSet
    gameTimerSet := gameTimerEffect c.rendered (runEffects c.rendered c.game) c.gameTimerSet }

/-- What happens to the clocked component: an interval fires or React renders. -/
inductive ClockEvent where
  | fire (t : Tick)
  | render
deriving DecidableEq

/-- The component after one clock event. -/
def Clocked.next (c : Clocked) : ClockEvent → Clocked
  | .fire t => c.fire t
  | .render => c.render

/-- The component after a sequence of clock events. -/
def Clocked.run (c : Clocked) : List ClockEvent → Clocked
  | [] => c
  | e :: es => (c.next e).run es

/-- A live interval was set by the effects of the last render: its guard holds
of the rendered state. -/
def Clocked.consistent (c : Clocked) : Prop :=
  (c.countdownSet = true → countdownGuard c.rendered = true) ∧
    (c.gameTimerSet = true → gameTimerGuard c.rendered = true)

instance Clocked.decConsistent (c : Clocked) : Decidable c.consistent := by
  unfold Clocked.consistent; infer_instance

/-- Four seconds of a timed game: each second the countdown interval fires,
then the game-timer interval (created second), then React renders. -/
def fourSeconds : List ClockEvent :=
  [ .fire .countdown, .fire .elapsed, .render,
    .fire .countdown, .fire .elapsed, .render,
    .fire .countdown, .fire .elapsed, .render,
    .fire .countdown, .fire .elapsed, .render ]

/-- A timed 3-disk game with a 5 second limit in its fifth second, right after
the countdown callback has ended the session and before the next render. -/
def exampleLastSecond : Clocked :=
  ((Clocked.ofRendered (newGame true 3 5)).run fourSeconds).fire .countdown

/-! ## Basic lemmas -/

theorem Board.get_set (b : Board) (i j : Fin 3) (peg : List Disk) :
    (b.set i peg).get j = if j = i then peg else b.get j := by
  fin_cases i <;> fin_cases j <;> rfl

theorem Board.get_set_self (b : Board) (i : Fin 3) (peg : List Disk) :
    (b.set i peg).get i = peg := by
  simp [Board.get_set]

theorem Board.get_set_ne (b : Board) {i j : Fin 3} (peg : List Disk) (h : j ≠ i) :
    (b.set i peg).get j = b.get j := by
  simp [Board.get_set, h]

theorem Board.mem_disks {b : Board} {d : Disk} :
    d ∈ b.disks ↔ ∃ i : Fin 3, d ∈ b.get i := by
  constructor
  · intro h
    simp only [Board.disks, List.mem_append] at h
    rcases h with (h | h) | h
    · exact ⟨0, h⟩
    · exact ⟨1, h⟩
    · exact ⟨2, h⟩
  · rintro ⟨i, h⟩
    simp only [Board.disks, List.mem_append]
    fin_cases i
    · exact Or.inl (Or.inl h)
    · exact Or.inl (Or.inr h)
    · exact Or.inr h

theorem runEffects_of_same (prev next : GameState)
    (h1 : next.numDisks = prev.numDisks) (h2 : next.isGameStarted = prev.isGameStarted)
    (h3 : next.timeLimit = prev.timeLimit) :
    runEffects prev next =
      if next.pillars ≠ prev.pillars then victoryEffect next else next := by
  have e1 : afterInitEffect prev next = next := by
    unfold afterInitEffect
    rw [if_neg]
    simp [h1, h2, h3]
  have e2 : afterFirstCommit prev next =
      if next.pillars ≠ prev.pillars then victoryEffect next else next := by
    unfold afterFirstCommit victoryEffect
    rw [e1]
    by_cases hp : next.pillars ≠ prev.pillars
    · by_cases hv : (next.pillars.get 2).length = next.numDisks
      · rw [if_pos ⟨Or.inl hp, hv⟩, if_pos hp, if_pos hv]
      · rw [if_neg (fun h => hv h.2), if_pos hp, if_neg hv]
    · rw [if_neg hp, if_neg]
      rintro ⟨h | h, _⟩
      · exact hp h
      · exact h h1
  have e3 : (afterFirstCommit prev next).pillars = next.pillars := by
    rw [e2]
    unfold victoryEffect
    split_ifs <;> rfl
  unfold runEffects
  rw [if_neg (not_not.mpr e3), e2]

theorem handler_numDisks (s : GameState) (a : Action) :
    (handler s a).numDisks = s.numDisks := by
  cases a <;> simp only [handler, handleDiskClick, handlePillarClick, handleUndo, handleRedo] <;>
    repeat (first | rfl | split)

theorem handler_isGameStarted (s : GameState) (a : Action) :
    (handler s a).isGameStarted = s.isGameStarted := by
  cases a <;> simp only [handler, handleDiskClick, handlePillarClick, handleUndo, handleRedo] <;>
    repeat (first | rfl | split)

theorem handler_timeLimit (s : GameState) (a : Action) :
    (handler s a).timeLimit = s.timeLimit := by
  cases a <;> simp only [handler, handleDiskClick, handlePillarClick, handleUndo, handleRedo] <;>
    repeat (first | rfl | split)

theorem handler_isVictory (s : GameState) (a : Action) :
    (handler s a).isVictory = s.isVictory := by
  cases a <;> simp only [handler, handleDiskClick, handlePillarClick, handleUndo, handleRedo] <;>
    repeat (first | rfl | split)

theorem step_eq (s : GameState) (a : Action) :
    step s a =
      if (handler s a).pillars ≠ s.pillars then victoryEffect (handler s a) else handler s a :=
  runEffects_of_same s (handler s a) (handler_numDisks s a) (handler_isGameStarted s a)
    (handler_timeLimit s a)

/-- The effects after a handler change at most the victory flag. -/
theorem step_cases (s : GameState) (a : Action) :
    step s a = handler s a ∨ step s a = { handler s a with isVictory := true } := by
  rw [step_eq]
  by_cases h : (handler s a).pillars ≠ s.pillars
  · rw [if_pos h]
    unfold victoryEffect
    split
    · exact Or.inr rfl
    · exact Or.inl rfl
  · rw [if_neg h]
    exact Or.inl rfl

theorem step_pillars (s : GameState) (a : Action) :
    (step s a).pillars = (handler s a).pillars := by
  rcases step_cases s a with h | h <;> rw [h]

theorem step_history (s : GameState) (a : Action) :
    (step s a).history = (handler s a).history := by
  rcases step_cases s a with h | h <;> rw [h]

theorem step_future (s : GameState) (a : Action) :
    (step s a).future = (handler s a).future := by
  rcases step_cases s a with h | h <;> rw [h]

theorem step_selectedDisk (s : GameState) (a : Action) :
    (step s a).selectedDisk = (handler s a).selectedDisk := by
  rcases step_cases s a with h | h <;> rw [h]

theorem step_moveCount (s : GameState) (a : Action) :
    (step s a).moveCount = (handler s a).moveCount := by
  rcases step_cases s a with h | h <;> rw [h]

theorem step_numDisks (s : GameState) (a : Action) :
    (step s a).numDisks = s.numDisks := by
  rcases step_cases s a with h | h <;> rw [h] <;> exact handler_numDisks s a

theorem step_isGameStarted (s : GameState) (a : Action) :
    (step s a).isGameStarted = s.isGameStarted := by
  rcases step_cases s a with h | h <;> rw [h] <;> exact handler_isGameStarted s a

/-! ## The started game -/

theorem newGame_eq (isTimedMode : Bool) (n : Nat) (limit : Int) (hn : 0 < n) :
    newGame isTimedMode n limit =
      { isTimedMode := isTimedMode
        numDisks := n
        selectedDisk := none
        moveCount := 0
        pillars := ⟨generateDisks n n, [], []⟩
        timer := 0
        history := []
        future := []
        isGameStarted := true
        isVictory := false
        timeLimit := limit
        timeLeft := limit
        timeOut := false } := by
  have hn0 : ¬ (0 = n) := by omega
  have h1 : setNumDisks n (initialState isTimedMode) =
      { initialState isTimedMode with numDisks := n } := by
    simp only [setNumDisks, initialState, runEffects, afterFirstCommit, afterInitEffect,
      initEffect, victoryEffect, Board.get]
    split_ifs <;> first | rfl | (exfalso; simp_all)
  have h2 : setTimeLimit limit { initialState isTimedMode with numDisks := n } =
      { initialState isTimedMode with numDisks := n, timeLimit := limit } := by
    simp only [setTimeLimit, initialState, runEffects, afterFirstCommit, afterInitEffect,
      initEffect, victoryEffect, Board.get]
    split_ifs <;> first | rfl | (exfalso; simp_all)
  rw [newGame, h1, h2]
  simp only [startGame, initialState, runEffects, afterFirstCommit, afterInitEffect,
    initEffect, victoryEffect, Board.get]
  split_ifs <;> first | rfl | (exfalso; simp_all)

theorem generateDisks_sorted (n : Nat) (h3 : 3 ≤ n) (h7 : n ≤ 7) :
    pegSorted (generateDisks n n) := by
  unfold pegSorted
  interval_cases n <;> decide

theorem generateDisks_ids (n : Nat) (h3 : 3 ≤ n) (h7 : n ≤ 7) :
    (generateDisks n n).map Disk.id = List.range n := by
  interval_cases n <;> decide

theorem generateDisks_sizes (n : Nat) (h3 : 3 ≤ n) (h7 : n ≤ 7) :
    ∀ d ∈ generateDisks n n, (diskSizes n)[d.id]? = some d.size := by
  interval_cases n <;> decide

/-! ## Ordering of the pegs -/

theorem pegSorted_top_le {peg : List Disk} {top : Disk} (hs : pegSorted peg)
    (ht : peg.getLast? = some top) : ∀ a ∈ peg, a.size ≥ top.size := by
  obtain ⟨ys, rfl⟩ := List.getLast?_eq_some_iff.mp ht
  intro a ha
  unfold pegSorted at hs
  rw [List.pairwise_append] at hs
  rcases List.mem_append.mp ha with h | h
  · exact le_of_lt (hs.2.2 a h top (List.mem_singleton_self top))
  · rw [List.mem_singleton.mp h]

/-- Placing `d` on a sorted peg that passes the destination test keeps it sorted. -/
theorem pegSorted_place {b : Board} {t : Fin 3} {d e : Disk} (hs : pegSorted (b.get t))
    (hc : canPlace b t d) (he : e.size = d.size) : pegSorted (b.get t ++ [e]) := by
  unfold pegSorted
  rw [List.pairwise_append]
  refine ⟨hs, List.pairwise_singleton _ _, ?_⟩
  intro a ha x hx
  rw [List.mem_singleton.mp hx, he]
  rcases hc with h0 | ⟨top, htop, hlt⟩
  · rw [List.length_eq_zero.mp h0] at ha
    cases ha
  · exact lt_of_lt_of_le hlt (pegSorted_top_le hs htop a ha)

theorem movedBoard_get (b : Board) (d : Disk) (t : Fin 3) (hne : d.pillarIndex ≠ t)
    (i : Fin 3) :
    (movedBoard b d t).get i =
      if i = t then b.get t ++ [{ d with pillarIndex := t }]
      else if i = d.pillarIndex then (b.get d.pillarIndex).filter fun x => x.id ≠ d.id
      else b.get i := by
  have h2 : t ≠ d.pillarIndex := fun h => hne h.symm
  unfold movedBoard
  by_cases h1 : i = t
  · subst h1
    rw [Board.get_set_self, Board.get_set_ne _ _ h2, if_pos rfl]
  · rw [Board.get_set_ne _ _ h1, Board.get_set, if_neg h1]

theorem movedBoard_sorted {b : Board} {d : Disk} {t : Fin 3} (hb : b.sorted)
    (hne : d.pillarIndex ≠ t) (hc : canPlace b t d) : (movedBoard b d t).sorted := by
  intro i
  rw [movedBoard_get b d t hne i]
  split_ifs with h1 h2
  · exact pegSorted_place (hb t) hc rfl
  · exact List.Pairwise.filter _ (hb d.pillarIndex)
  · exact hb i

/-- The outcome of `handlePillarClick`, branch by branch. -/
theorem handlePillarClick_eq (t : Fin 3) (s : GameState) :
    handlePillarClick t s =
      match s.selectedDisk with
      | none => s
      | some d =>
        if d.pillarIndex = t then { s with selectedDisk := none }
        else if canPlace s.pillars t d then
          { s with
            history := s.history ++ [s.pillars]
            future := []
            pillars := movedBoard s.pillars d t
            selectedDisk := none
            moveCount := s.moveCount + 1 }
        else { s with selectedDisk := none } := by
  unfold handlePillarClick canPlace movedBoard
  rfl

theorem handleUndo_eq (s : GameState) :
    handleUndo s =
      match s.history.getLast? with
      | some previousState =>
        { s with
          future := s.future ++ [s.pillars]
          pillars := previousState
          history := s.history.dropLast
          moveCount := s.moveCount - 1 }
      | none => s := rfl

theorem handleRedo_eq (s : GameState) :
    handleRedo s =
      match s.future.getLast? with
      | some nextState =>
        { s with
          history := s.history ++ [s.pillars]
          pillars := nextState
          future := s.future.dropLast
          moveCount := s.moveCount + 1 }
      | none => s := rfl

/-! ## Invariants of the reachable states -/

theorem getLast?_mem {α : Type} {l : List α} {a : α} (h : l.getLast? = some a) : a ∈ l := by
  obtain ⟨ys, rfl⟩ := List.getLast?_eq_some_iff.mp h
  simp

theorem handler_boardInv {P : Board → Prop} {Q : Disk → Prop}
    (hmove : ∀ b d t, P b → Q d → d.pillarIndex ≠ t → canPlace b t d → P (movedBoard b d t))
    (hsel : ∀ b d, P b → d ∈ b.disks → Q d)
    {s : GameState} (a : Action) (hs : BoardInv P Q s) (ha : a.enabled s) :
    BoardInv P Q (handler s a) := by
  obtain ⟨hc, hh, hf, hq⟩ := hs
  cases a with
  | diskClick disk =>
    simp only [handler, handleDiskClick]
    split
    · split
      · refine ⟨hc, hh, hf, ?_⟩
        intro d hd
        simp only [Option.mem_def, Option.some.injEq] at hd
        subst hd
        exact hsel _ _ hc ha.2
      · exact ⟨hc, hh, hf, hq⟩
    · exact ⟨hc, hh, hf, hq⟩
  | pillarClick t =>
    simp only [handler]
    rw [handlePillarClick_eq]
    cases hsd : s.selectedDisk with
    | none => exact ⟨hc, hh, hf, hq⟩
    | some d =>
      have hQ : Q d := hq d (by simp [hsd])
      simp only
      split_ifs with h1 h2
      · exact ⟨hc, hh, hf, by simp⟩
      · refine ⟨hmove _ _ _ hc hQ h1 h2, ?_, by simp, by simp⟩
        intro b hb
        rcases List.mem_append.mp hb with h | h
        · exact hh b h
        · rw [List.mem_singleton.mp h]
          exact hc
      · exact ⟨hc, hh, hf, by simp⟩
  | undo =>
    simp only [handler]
    rw [handleUndo_eq]
    cases hl : s.history.getLast? with
    | none => exact ⟨hc, hh, hf, hq⟩
    | some prev =>
      refine ⟨hh prev (getLast?_mem hl), ?_, ?_, hq⟩
      · intro b hb
        exact hh b (List.dropLast_subset _ hb)
      · intro b hb
        rcases List.mem_append.mp hb with h | h
        · exact hf b h
        · rw [List.mem_singleton.mp h]
          exact hc
  | redo =>
    simp only [handler]
    rw [handleRedo_eq]
    cases hl : s.future.getLast? with
    | none => exact ⟨hc, hh, hf, hq⟩
    | some next =>
      refine ⟨hf next (getLast?_mem hl), ?_, ?_, hq⟩
      · intro b hb
        rcases List.mem_append.mp hb with h | h
        · exact hh b h
        · rw [List.mem_singleton.mp h]
          exact hc
      · intro b hb
        exact hf b (List.dropLast_subset _ hb)

theorem step_boardInv {P : Board → Prop} {Q : Disk → Prop}
    (hmove : ∀ b d t, P b → Q d → d.pillarIndex ≠ t → canPlace b t d → P (movedBoard b d t))
    (hsel : ∀ b d, P b → d ∈ b.disks → Q d)
    {s : GameState} (a : Action) (hs : BoardInv P Q s) (ha : a.enabled s) :
    BoardInv P Q (step s a) := by
  obtain ⟨hc, hh, hf, hq⟩ := handler_boardInv hmove hsel a hs ha
  exact ⟨by rw [step_pillars]; exact hc, by rw [step_history]; exact hh,
    by rw [step_future]; exact hf, by rw [step_selectedDisk]; exact hq⟩

/-- A board property that holds of the fresh board and is kept by every
accepted move holds throughout every reachable state. -/
theorem reachable_boardInv {P : Board → Prop} {Q : Disk → Prop} {n : Nat} (hn : 0 < n)
    (hinit : P ⟨generateDisks n n, [], []⟩)
    (hmove : ∀ b d t, P b → Q d → d.pillarIndex ≠ t → canPlace b t d → P (movedBoard b d t))
    (hsel : ∀ b d, P b → d ∈ b.disks → Q d)
    {s : GameState} (hr : Reachable n s) : BoardInv P Q s := by
  induction hr with
  | start isTimedMode limit =>
    rw [newGame_eq isTimedMode n limit hn]
    exact ⟨hinit, by simp, by simp, by simp⟩
  | step a _ ha ih => exact step_boardInv hmove hsel a ih ha

theorem reachable_numDisks {n : Nat} (hn : 0 < n) {s : GameState} (hr : Reachable n s) :
    s.numDisks = n := by
  induction hr with
  | start isTimedMode limit => rw [newGame_eq isTimedMode n limit hn]
  | step a _ _ ih => rw [step_numDisks]; exact ih

theorem reachable_isGameStarted {n : Nat} (hn : 0 < n) {s : GameState}
    (hr : Reachable n s) : s.isGameStarted = true := by
  induction hr with
  | start isTimedMode limit => rw [newGame_eq isTimedMode n limit hn]
  | step a _ _ ih => rw [step_isGameStarted]; exact ih

/-- Running an offered sequence of events from a reachable state stays reachable. -/
theorem reachable_run {n : Nat} (acts : List Action) :
    ∀ {s : GameState}, Reachable n s → validFrom s acts = true → Reachable n (run s acts) := by
  induction acts with
  | nil => intro s hr _; exact hr
  | cons a as ih =>
    intro s hr hv
    simp only [validFrom, Bool.and_eq_true, decide_eq_true_eq] at hv
    exact ih (Reachable.step a hr hv.1) hv.2

theorem Board.mem_ids {b : Board} {i : Nat} :
    i ∈ b.ids ↔ ∃ (j : Fin 3) (x : Disk), x ∈ b.get j ∧ x.id = i := by
  unfold Board.ids
  rw [List.mem_map]
  constructor
  · rintro ⟨x, hx, rfl⟩
    obtain ⟨j, hj⟩ := Board.mem_disks.mp hx
    exact ⟨j, x, hj, rfl⟩
  · rintro ⟨j, x, hx, rfl⟩
    exact ⟨x, Board.mem_disks.mpr ⟨j, hx⟩, rfl⟩

/-- An accepted move keeps the set of ids on the board when the moved disk's
id is one of them. -/
theorem movedBoard_mem_ids {b : Board} {d : Disk} {t : Fin 3} (hne : d.pillarIndex ≠ t)
    (hd : d.id ∈ b.ids) (i : Nat) : i ∈ (movedBoard b d t).ids ↔ i ∈ b.ids := by
  constructor
  · intro h
    obtain ⟨j, x, hx, rfl⟩ := Board.mem_ids.mp h
    rw [movedBoard_get b d t hne j] at hx
    split_ifs at hx with h1 h2
    · rcases List.mem_append.mp hx with h | h
      · exact Board.mem_ids.mpr ⟨t, x, h, rfl⟩
      · rw [List.mem_singleton.mp h]
        exact hd
    · exact Board.mem_ids.mpr ⟨d.pillarIndex, x, (List.mem_filter.mp hx).1, rfl⟩
    · exact Board.mem_ids.mpr ⟨j, x, hx, rfl⟩
  · intro h
    by_cases hid : i = d.id
    · refine Board.mem_ids.mpr ⟨t, { d with pillarIndex := t }, ?_, hid.symm⟩
      rw [movedBoard_get b d t hne t, if_pos rfl]
      simp
    · obtain ⟨j, x, hx, rfl⟩ := Board.mem_ids.mp h
      refine Board.mem_ids.mpr ⟨j, x, ?_, rfl⟩
      rw [movedBoard_get b d t hne j]
      split_ifs with h1 h2
      · exact List.mem_append.mpr (Or.inl (h1 ▸ hx))
      · exact List.mem_filter.mpr ⟨h2 ▸ hx, by simpa using hid⟩
      · exact hx

theorem movedBoard_mem_disks {b : Board} {d : Disk} {t : Fin 3} (hne : d.pillarIndex ≠ t)
    {x : Disk} (hx : x ∈ (movedBoard b d t).disks) :
    x ∈ b.disks ∨ x = { d with pillarIndex := t } := by
  obtain ⟨j, hj⟩ := Board.mem_disks.mp hx
  rw [movedBoard_get b d t hne j] at hj
  split_ifs at hj with h1 h2
  · rcases List.mem_append.mp hj with h | h
    · exact Or.inl (Board.mem_disks.mpr ⟨t, h⟩)
    · exact Or.inr (List.mem_singleton.mp h)
  · exact Or.inl (Board.mem_disks.mpr ⟨d.pillarIndex, (List.mem_filter.mp hj).1⟩)
  · exact Or.inl (Board.mem_disks.mpr ⟨j, hj⟩)

/-- On a sorted peg whose disks all carry the size that the table assigns to
their id, no id occurs twice. -/
theorem pegSorted_ids_nodup {n : Nat} {peg : List Disk} (hs : pegSorted peg)
    (hsz : ∀ x ∈ peg, (diskSizes n)[x.id]? = some x.size) : (peg.map Disk.id).Nodup := by
  unfold List.Nodup
  rw [List.pairwise_map]
  refine List.Pairwise.imp_of_mem ?_ hs
  intro a b ha hb hgt hid
  have h1 := hsz a ha
  have h2 := hsz b hb
  rw [hid, h2] at h1
  have h3 : b.size = a.size := Option.some.inj h1
  rw [h3] at hgt
  exact lt_irrefl _ hgt

/-- In every reachable state each peg of the current board holds every disk id
at most once. -/
theorem reachable_peg_ids_nodup {n : Nat} {s : GameState} (h3 : 3 ≤ n) (h7 : n ≤ 7)
    (hr : Reachable n s) (i : Fin 3) : ((s.pillars.get i).map Disk.id).Nodup := by
  have hinit : Board.sorted ⟨generateDisks n n, [], []⟩ ∧
      ∀ x ∈ (Board.mk (generateDisks n n) [] []).disks, (diskSizes n)[x.id]? = some x.size := by
    refine ⟨?_, ?_⟩
    · intro i
      fin_cases i
      · exact generateDisks_sorted n h3 h7
      · exact List.Pairwise.nil
      · exact List.Pairwise.nil
    · intro x hx
      simp only [Board.disks, List.append_nil] at hx
      exact generateDisks_sizes n h3 h7 x hx
  have h := reachable_boardInv
    (P := fun b => b.sorted ∧ ∀ x ∈ b.disks, (diskSizes n)[x.id]? = some x.size)
    (Q := fun d => (diskSizes n)[d.id]? = some d.size) (by omega) hinit
    (fun b d t hb hd hne hc => ⟨movedBoard_sorted hb.1 hne hc, fun x hx => by
      rcases movedBoard_mem_disks hne hx with h | h
      · exact hb.2 x h
      · rw [h]; exact hd⟩)
    (fun b d hb hd => hb.2 d hd) hr
  exact pegSorted_ids_nodup (h.cur.1 i)
    (fun x hx => h.cur.2 x (Board.mem_disks.mpr ⟨i, hx⟩))

/-- Filtering the top disk's id out of a peg without repeated ids removes
exactly the top disk. -/
theorem filter_top_eq_dropLast {peg : List Disk} {d : Disk} (htop : peg.getLast? = some d)
    (hnd : (peg.map Disk.id).Nodup) :
    peg.filter (fun x => x.id ≠ d.id) = peg.dropLast := by
  obtain ⟨ys, rfl⟩ := List.getLast?_eq_some_iff.mp htop
  rw [List.map_append, List.nodup_append] at hnd
  have hys : ∀ y ∈ ys, y.id ≠ d.id := by
    intro y hy hid
    exact hnd.2.2 (List.mem_map_of_mem Disk.id hy) (by simp [hid])
  rw [List.filter_append, List.dropLast_concat]
  have h1 : ys.filter (fun x => x.id ≠ d.id) = ys := by
    rw [List.filter_eq_self]
    intro y hy
    simpa using hys y hy
  have h2 : [d].filter (fun x => x.id ≠ d.id) = [] := by simp
  rw [h1, h2, List.append_nil]

/-- The state after an accepted move. -/
theorem handlePillarClick_accepted {s : GameState} {t : Fin 3} {d : Disk}
    (hsel : s.selectedDisk = some d) (hne : d.pillarIndex ≠ t) (hc : canPlace s.pillars t d) :
    handlePillarClick t s =
      { s with
        history := s.history ++ [s.pillars]
        future := []
        pillars := movedBoard s.pillars d t
        selectedDisk := none
        moveCount := s.moveCount + 1 } := by
  rw [handlePillarClick_eq, hsel]
  simp only
  rw [if_neg hne, if_pos hc]

theorem step_undo_fields {s : GameState} {prev : Board}
    (h : s.history.getLast? = some prev) :
    (step s .undo).pillars = prev ∧ (step s .undo).history = s.history.dropLast ∧
      (step s .undo).future = s.future ++ [s.pillars] ∧
      (step s .undo).moveCount = s.moveCount - 1 := by
  rw [step_pillars, step_history, step_future, step_moveCount]
  simp only [handler]
  rw [handleUndo_eq, h]
  exact ⟨rfl, rfl, rfl, rfl⟩

theorem step_redo_fields {s : GameState} {next : Board}
    (h : s.future.getLast? = some next) :
    (step s .redo).pillars = next ∧ (step s .redo).history = s.history ++ [s.pillars] ∧
      (step s .redo).future = s.future.dropLast ∧
      (step s .redo).moveCount = s.moveCount + 1 := by
  rw [step_pillars, step_history, step_future, step_moveCount]
  simp only [handler]
  rw [handleRedo_eq, h]
  exact ⟨rfl, rfl, rfl, rfl⟩

theorem step_redo_nil {s : GameState} (h : s.future = []) : step s .redo = s := by
  have hr : handleRedo s = s := by
    rw [handleRedo_eq, h]
    rfl
  rw [step_eq]
  simp only [handler]
  rw [hr]
  simp

theorem sameSession_refl (a : GameState) : sameSession a a := ⟨rfl, rfl, rfl, rfl⟩

theorem sameSession_trans {a b c : GameState} (h1 : sameSession a b) (h2 : sameSession b c) :
    sameSession a c :=
  ⟨h1.1.trans h2.1, h1.2.1.trans h2.2.1, h1.2.2.1.trans h2.2.2.1, h1.2.2.2.trans h2.2.2.2⟩

/-- Redo acts on Board, History, Future and move counter only. -/
theorem sameSession_redo {a b : GameState} (h : sameSession a b) :
    sameSession (step a .redo) (step b .redo) := by
  obtain ⟨hp, hh, hf, hm⟩ := h
  cases hl : a.future.getLast? with
  | none =>
    have ha : a.future = [] := List.getLast?_eq_none_iff.mp hl
    have hb : b.future = [] := hf ▸ ha
    rw [step_redo_nil ha, step_redo_nil hb]
    exact ⟨hp, hh, hf, hm⟩
  | some next =>
    have hl2 : b.future.getLast? = some next := hf ▸ hl
    obtain ⟨a1, a2, a3, a4⟩ := step_redo_fields hl
    obtain ⟨b1, b2, b3, b4⟩ := step_redo_fields hl2
    refine ⟨a1.trans b1.symm, ?_, ?_, ?_⟩
    · rw [a2, b2, hh, hp]
    · rw [a3, b3, hf]
    · rw [a4, b4, hm]

/-- One undo followed by one redo, from a state with a non-empty History. -/
theorem sameSession_undo_redo {s : GameState} (h : s.history ≠ []) :
    sameSession (step (step s .undo) .redo) s := by
  cases hl : s.history.getLast? with
  | none => exact absurd (List.getLast?_eq_none_iff.mp hl) h
  | some prev =>
    obtain ⟨u1, u2, u3, u4⟩ := step_undo_fields hl
    have hl2 : (step s .undo).future.getLast? = some s.pillars := by
      rw [u3, List.getLast?_concat]
    obtain ⟨r1, r2, r3, r4⟩ := step_redo_fields hl2
    refine ⟨r1, ?_, ?_, ?_⟩
    · rw [r2, u2, u1]
      exact List.dropLast_append_getLast? prev hl
    · rw [r3, u3, List.dropLast_concat]
    · rw [r4, u4]; omega

theorem undoRedo_sameSession (k : Nat) :
    ∀ s : GameState, k ≤ s.history.length → sameSession (undoRedo k s) s := by
  induction k with
  | zero => intro s _; exact sameSession_refl s
  | succ k ih =>
    intro s hk
    have hne : s.history ≠ [] := by
      intro h
      rw [h] at hk
      simp at hk
    have hlen : k ≤ (step s .undo).history.length := by
      cases hl : s.history.getLast? with
      | none => exact absurd (List.getLast?_eq_none_iff.mp hl) hne
      | some prev =>
        rw [(step_undo_fields hl).2.1, List.length_dropLast]
        omega
    have h1 : undoRedo (k + 1) s = step (undoRedo k (step s .undo)) .redo := by
      unfold undoRedo
      rw [Function.iterate_succ_apply' (fun x => step x .redo) k,
        Function.iterate_succ_apply (fun x => step x .undo) k s]
    rw [h1]
    exact sameSession_trans (sameSession_redo (ih _ hlen)) (sameSession_undo_redo hne)

theorem step_accepted_fields {s : GameState} {t : Fin 3} (hmove : moveAccepted s t) :
    (step s (.pillarClick t)).history = s.history ++ [s.pillars] ∧
      (step s (.pillarClick t)).future = [] ∧
      (step s (.pillarClick t)).moveCount = s.moveCount + 1 := by
  obtain ⟨d, hd, hne, hc⟩ := hmove
  have hacc := handlePillarClick_accepted (Option.mem_def.mp hd) hne hc
  rw [step_history, step_future, step_moveCount]
  simp only [handler]
  rw [hacc]
  exact ⟨rfl, rfl, rfl⟩

/-- The victory effect leaves the flag set whenever peg 2 holds `numDisks` disks. -/
theorem victoryEffect_flag (s : GameState)
    (h : ((victoryEffect s).pillars.get 2).length = (victoryEffect s).numDisks) :
    (victoryEffect s).isVictory = true := by
  unfold victoryEffect at h ⊢
  split
  · rfl
  · rename_i hne
    rw [if_neg hne] at h
    exact absurd h hne

theorem reachable_victory_flag {n : Nat} (hn : 0 < n) {s : GameState} (hr : Reachable n s) :
    (s.pillars.get 2).length = s.numDisks → s.isVictory = true := by
  induction hr with
  | start isTimedMode limit =>
    rw [newGame_eq isTimedMode n limit hn]
    intro h
    simp only [Board.get, List.length_nil] at h
    omega
  | @step s0 a _ _ ih =>
    rw [step_eq]
    by_cases hch : (handler s0 a).pillars ≠ s0.pillars
    · rw [if_pos hch]
      exact victoryEffect_flag _
    · rw [if_neg hch, handler_numDisks, handler_isVictory]
      have hsame : (handler s0 a).pillars = s0.pillars := not_not.mp hch
      rw [hsame]
      exact ih

/-! ## Claims -/

/-- C1: in every state reachable from a started game with 3 to 7 disks by disk
clicks, pillar clicks, undos and redos, every peg of the current board is
strictly decreasing in size from bottom to top, and so is every peg of every
board stored in History and in Future. -/
theorem reachable_pegs_strictly_decreasing (n : Nat) (s : GameState) (h3 : 3 ≤ n)
    (h7 : n ≤ 7) (hr : Reachable n s) :
    s.pillars.sorted ∧ (∀ b ∈ s.history, b.sorted) ∧ (∀ b ∈ s.future, b.sorted) := by
  have hinit : Board.sorted ⟨generateDisks n n, [], []⟩ := by
    intro i
    fin_cases i
    · exact generateDisks_sorted n h3 h7
    · exact List.Pairwise.nil
    · exact List.Pairwise.nil
  have h := reachable_boardInv (P := Board.sorted) (Q := fun _ => True) (by omega) hinit
    (fun b d t hb _ hne hc => movedBoard_sorted hb hne hc) (fun _ _ _ _ => trivial) hr
  exact ⟨h.cur, h.hist, h.fut⟩

/-- Witness for C1: a 3-disk game after a move, a second selection, an undo and
a further move (History and Future are both in play). -/
theorem reachable_pegs_strictly_decreasing_witness :
    Reachable 3 (run (newGame false 3 60)
        [.diskClick (diskOn 3 2 0), .pillarClick 1, .diskClick (diskOn 3 1 0),
          .pillarClick 2, .undo]) ∧
      (run (newGame false 3 60)
        [.diskClick (diskOn 3 2 0), .pillarClick 1, .diskClick (diskOn 3 1 0),
          .pillarClick 2, .undo]).future ≠ [] ∧
      (run (newGame false 3 60)
        [.diskClick (diskOn 3 2 0), .pillarClick 1, .diskClick (diskOn 3 1 0),
          .pillarClick 2, .undo]).pillars.sorted :=
  ⟨reachable_run _ (Reachable.start false 60) (by decide), by decide,
    (reachable_pegs_strictly_decreasing 3 _ (by decide) (by decide)
      (reachable_run _ (Reachable.start false 60) (by decide))).1⟩

/-- C2 (evaluation of the code at the failing input): in a 3-disk game, move
disk 2 to peg 1, select it there, undo, and click pillar 2. Undo leaves the
selection in place, so the click is accepted with the stale source peg 1: the
disk is removed from nowhere and appended to peg 2. The reachable board then
holds four disks and disk id 2 stands on two pegs. -/
theorem undo_with_selection_duplicates_disk :
    Reachable 3 (run (newGame false 3 60)
        [.diskClick (diskOn 3 2 0), .pillarClick 1, .diskClick (diskOn 3 2 1), .undo,
          .pillarClick 2]) ∧
      (run (newGame false 3 60)
        [.diskClick (diskOn 3 2 0), .pillarClick 1, .diskClick (diskOn 3 2 1), .undo,
          .pillarClick 2]).pillars =
        ⟨[diskOn 3 0 0, diskOn 3 1 0, diskOn 3 2 0], [], [diskOn 3 2 2]⟩ ∧
      (run (newGame false 3 60)
        [.diskClick (diskOn 3 2 0), .pillarClick 1, .diskClick (diskOn 3 2 1), .undo,
          .pillarClick 2]).pillars.disks.length = 4 ∧
      (run (newGame false 3 60)
        [.diskClick (diskOn 3 2 0), .pillarClick 1, .diskClick (diskOn 3 2 1), .undo,
          .pillarClick 2]).pillars.countId 2 = 2 :=
  ⟨reachable_run _ (Reachable.start false 60) (by decide), by decide, by decide, by decide⟩

/-- C3: in every state reachable from a started game with `n` disks (3 to 7),
the set of disk ids occurring on the three pegs is exactly `{0, ..., n-1}`. -/
theorem reachable_id_set (n : Nat) (s : GameState) (h3 : 3 ≤ n) (h7 : n ≤ 7)
    (hr : Reachable n s) : s.pillars.ids.toFinset = Finset.range n := by
  have hinit : ∀ i, i ∈ (Board.mk (generateDisks n n) [] []).ids ↔ i < n := by
    intro i
    simp [Board.ids, Board.disks, generateDisks_ids n h3 h7]
  have h := reachable_boardInv (P := fun b => ∀ i, i ∈ b.ids ↔ i < n)
    (Q := fun d => d.id < n) (by omega) hinit
    (fun b d t hb hd hne _ i =>
      (movedBoard_mem_ids hne ((hb d.id).mpr hd) i).trans (hb i))
    (fun b d hb hd => (hb d.id).mp (List.mem_map_of_mem Disk.id hd)) hr
  ext i
  rw [List.mem_toFinset, Finset.mem_range]
  exact h.cur i

/-- Witness for C3: the board with a duplicated disk still shows the ids 0, 1, 2. -/
theorem reachable_id_set_witness :
    Reachable 3 (run (newGame false 3 60)
        [.diskClick (diskOn 3 2 0), .pillarClick 1, .diskClick (diskOn 3 2 1), .undo,
          .pillarClick 2, .redo]) ∧
      (run (newGame false 3 60)
        [.diskClick (diskOn 3 2 0), .pillarClick 1, .diskClick (diskOn 3 2 1), .undo,
          .pillarClick 2, .redo]).pillars.ids.toFinset = Finset.range 3 :=
  ⟨reachable_run _ (Reachable.start false 60) (by decide),
    reachable_id_set 3 _ (by decide) (by decide)
      (reachable_run _ (Reachable.start false 60) (by decide))⟩

/-- C4 (evaluation of the code at the failing input): in a 3-disk game, move
disk 2 to peg 1, select disk 1 (now the top of peg 0) and undo. The selection
survives the undo, so the selected disk 1 lies under disk 2 on peg 0. The next
click on pillar 1 is accepted and takes disk 1 out of the middle of peg 0. -/
theorem undo_with_selection_moves_buried_disk :
    Reachable 3 (run (newGame false 3 60)
        [.diskClick (diskOn 3 2 0), .pillarClick 1, .diskClick (diskOn 3 1 0), .undo]) ∧
      (run (newGame false 3 60)
        [.diskClick (diskOn 3 2 0), .pillarClick 1, .diskClick (diskOn 3 1 0), .undo]).selectedDisk
        = some (diskOn 3 1 0) ∧
      (run (newGame false 3 60)
        [.diskClick (diskOn 3 2 0), .pillarClick 1, .diskClick (diskOn 3 1 0), .undo]).pillars
        = ⟨[diskOn 3 0 0, diskOn 3 1 0, diskOn 3 2 0], [], []⟩ ∧
      (run (newGame false 3 60)
        [.diskClick (diskOn 3 2 0), .pillarClick 1, .diskClick (diskOn 3 1 0), .undo,
          .pillarClick 1]).pillars
        = ⟨[diskOn 3 0 0, diskOn 3 2 0], [diskOn 3 1 1], []⟩ ∧
      (run (newGame false 3 60)
        [.diskClick (diskOn 3 2 0), .pillarClick 1, .diskClick (diskOn 3 1 0), .undo,
          .pillarClick 1]).moveCount = 1 :=
  ⟨reachable_run _ (Reachable.start false 60) (by decide), by decide, by decide, by decide,
    by decide⟩

/-- C5: in a state whose selected disk `d` is the top disk of its peg (a peg
holding each disk id once, as every reachable peg does), a click on another
pillar `t` that is empty or whose top disk is strictly larger than `d` yields:
the source peg without its top disk, peg `t` with `d` (its `pillarIndex` set to
`t`) appended on top, the third peg unchanged, History extended by the pre-move
board, Future empty, the move counter increased by 1 and no selection. -/
theorem handlePillarClick_legal_move (s : GameState) (d : Disk) (t : Fin 3)
    (hsel : s.selectedDisk = some d)
    (htop : (s.pillars.get d.pillarIndex).getLast? = some d)
    (hids : ((s.pillars.get d.pillarIndex).map Disk.id).Nodup)
    (hne : t ≠ d.pillarIndex)
    (hdest : s.pillars.get t = [] ∨
      ∃ top, (s.pillars.get t).getLast? = some top ∧ top.size > d.size) :
    (handlePillarClick t s).pillars.get d.pillarIndex = (s.pillars.get d.pillarIndex).dropLast ∧
      (handlePillarClick t s).pillars.get t = s.pillars.get t ++ [{ d with pillarIndex := t }] ∧
      (∀ u : Fin 3, u ≠ d.pillarIndex → u ≠ t →
        (handlePillarClick t s).pillars.get u = s.pillars.get u) ∧
      (handlePillarClick t s).history = s.history ++ [s.pillars] ∧
      (handlePillarClick t s).future = [] ∧
      (handlePillarClick t s).moveCount = s.moveCount + 1 ∧
      (handlePillarClick t s).selectedDisk = none := by
  have hne2 : d.pillarIndex ≠ t := fun h => hne h.symm
  have hc : canPlace s.pillars t d := by
    rcases hdest with h | ⟨top, h1, h2⟩
    · exact Or.inl (by rw [h]; rfl)
    · exact Or.inr ⟨top, h1, h2⟩
  rw [handlePillarClick_accepted hsel hne2 hc]
  refine ⟨?_, ?_, ?_, rfl, rfl, rfl, rfl⟩
  · show (movedBoard s.pillars d t).get d.pillarIndex = _
    rw [movedBoard_get _ _ _ hne2, if_neg hne2, if_pos rfl]
    exact filter_top_eq_dropLast htop hids
  · show (movedBoard s.pillars d t).get t = _
    rw [movedBoard_get _ _ _ hne2, if_pos rfl]
  · intro u hu1 hu2
    show (movedBoard s.pillars d t).get u = _
    rw [movedBoard_get _ _ _ hne2, if_neg hu2, if_neg hu1]

/-- C6: with a disk `d` selected, a click on another pillar whose top disk is
not strictly larger than `d` changes nothing but the selection, which it
clears: Board, History, Future and move counter stay as they were (and the
effects of the following render change nothing either). -/
theorem handlePillarClick_illegal_move (s : GameState) (d top : Disk) (t : Fin 3)
    (hsel : s.selectedDisk = some d) (hne : t ≠ d.pillarIndex)
    (htop : (s.pillars.get t).getLast? = some top) (hsize : ¬ top.size > d.size) :
    handlePillarClick t s = { s with selectedDisk := none } ∧
      step s (.pillarClick t) = { s with selectedDisk := none } := by
  have hne2 : d.pillarIndex ≠ t := fun h => hne h.symm
  have hc : ¬ canPlace s.pillars t d := by
    rintro (h | ⟨x, hx, hlt⟩)
    · rw [List.length_eq_zero.mp h] at htop
      simp at htop
    · rw [Option.mem_def, htop] at hx
      exact hsize (Option.some.inj hx ▸ hlt)
  have h : handlePillarClick t s = { s with selectedDisk := none } := by
    rw [handlePillarClick_eq, hsel]
    simp only
    rw [if_neg hne2, if_neg hc]
  refine ⟨h, ?_⟩
  rw [step_eq]
  simp only [handler]
  rw [h]
  simp

/-- C7: after an accepted move, `handleUndo` restores the pre-move Board and the
pre-move History, brings the move counter back to its pre-move value (the
post-move value minus 1) and pushes the post-move Board onto Future. -/
theorem handleUndo_after_move (s : GameState) (t : Fin 3) (hmove : moveAccepted s t) :
    (handleUndo (step s (.pillarClick t))).pillars = s.pillars ∧
      (handleUndo (step s (.pillarClick t))).history = s.history ∧
      (handleUndo (step s (.pillarClick t))).moveCount = s.moveCount ∧
      (handleUndo (step s (.pillarClick t))).moveCount =
        (step s (.pillarClick t)).moveCount - 1 ∧
      (handleUndo (step s (.pillarClick t))).future =
        (step s (.pillarClick t)).future ++ [(step s (.pillarClick t)).pillars] ∧
      (handleUndo (step s (.pillarClick t))).future = [(step s (.pillarClick t)).pillars] := by
  obtain ⟨d, hd, hne, hc⟩ := hmove
  have hacc := handlePillarClick_accepted (Option.mem_def.mp hd) hne hc
  have hh : (step s (.pillarClick t)).history = s.history ++ [s.pillars] := by
    rw [step_history]; simp only [handler]; rw [hacc]
  have hf : (step s (.pillarClick t)).future = [] := by
    rw [step_future]; simp only [handler]; rw [hacc]
  have hm : (step s (.pillarClick t)).moveCount = s.moveCount + 1 := by
    rw [step_moveCount]; simp only [handler]; rw [hacc]
  have hl : (step s (.pillarClick t)).history.getLast? = some s.pillars := by
    rw [hh, List.getLast?_concat]
  have hu : handleUndo (step s (.pillarClick t)) =
      { step s (.pillarClick t) with
        future := (step s (.pillarClick t)).future ++ [(step s (.pillarClick t)).pillars]
        pillars := s.pillars
        history := (step s (.pillarClick t)).history.dropLast
        moveCount := (step s (.pillarClick t)).moveCount - 1 } := by
    rw [handleUndo_eq, hl]
  rw [hu]
  refine ⟨rfl, ?_, ?_, rfl, rfl, ?_⟩
  · show (step s (.pillarClick t)).history.dropLast = s.history
    rw [hh, List.dropLast_concat]
  · show (step s (.pillarClick t)).moveCount - 1 = s.moveCount
    rw [hm]; omega
  · show (step s (.pillarClick t)).future ++ [(step s (.pillarClick t)).pillars] = _
    rw [hf, List.nil_append]

/-- Witness for C5: in the 3-disk game with one disk per peg, the selected
disk 2 (top of peg 2) is moved onto peg 1, whose top disk 1 is larger. -/
theorem handlePillarClick_legal_move_witness :
    (handlePillarClick 1 exampleSpread).pillars.get (diskOn 3 2 2).pillarIndex =
        (exampleSpread.pillars.get (diskOn 3 2 2).pillarIndex).dropLast ∧
      (handlePillarClick 1 exampleSpread).pillars.get 1 =
        exampleSpread.pillars.get 1 ++ [{ diskOn 3 2 2 with pillarIndex := 1 }] ∧
      (∀ u : Fin 3, u ≠ (diskOn 3 2 2).pillarIndex → u ≠ 1 →
        (handlePillarClick 1 exampleSpread).pillars.get u = exampleSpread.pillars.get u) ∧
      (handlePillarClick 1 exampleSpread).history =
        exampleSpread.history ++ [exampleSpread.pillars] ∧
      (handlePillarClick 1 exampleSpread).future = [] ∧
      (handlePillarClick 1 exampleSpread).moveCount = exampleSpread.moveCount + 1 ∧
      (handlePillarClick 1 exampleSpread).selectedDisk = none :=
  handlePillarClick_legal_move exampleSpread (diskOn 3 2 2) 1 (by decide) (by decide)
    (by decide) (by decide) (Or.inr ⟨diskOn 3 1 1, by decide, by decide⟩)

/-- Witness for C6: with disk 2 on peg 2 and disk 1 selected on peg 0, a click
on pillar 2 is rejected. -/
theorem handlePillarClick_illegal_move_witness :
    handlePillarClick 2 exampleBlocked = { exampleBlocked with selectedDisk := none } ∧
      step exampleBlocked (.pillarClick 2) = { exampleBlocked with selectedDisk := none } :=
  handlePillarClick_illegal_move exampleBlocked (diskOn 3 1 0) (diskOn 3 2 2) 2 (by decide)
    (by decide) (by decide) (by decide)

/-- Witness for C7: the first move of a 3-disk game (disk 2 to peg 2), undone. -/
theorem handleUndo_after_move_witness :
    moveAccepted exampleSelected 2 ∧
      (handleUndo (step exampleSelected (.pillarClick 2))).pillars = exampleSelected.pillars ∧
      (handleUndo (step exampleSelected (.pillarClick 2))).moveCount =
        exampleSelected.moveCount :=
  ⟨by decide, (handleUndo_after_move exampleSelected 2 (by decide)).1,
    (handleUndo_after_move exampleSelected 2 (by decide)).2.2.1⟩

/-- C8: from a state whose History has at least `k` entries, `k` consecutive
undos followed by `k` consecutive redos return the same Board, History, Future
and move counter; in particular undo followed by redo after any accepted move
gives back the Board, History, Future and move counter of the move. -/
theorem undo_redo_round_trip (s : GameState) (k : Nat) (hk : k ≤ s.history.length) :
    ((undoRedo k s).pillars = s.pillars ∧ (undoRedo k s).history = s.history ∧
        (undoRedo k s).future = s.future ∧ (undoRedo k s).moveCount = s.moveCount) ∧
      ∀ t : Fin 3, moveAccepted s t →
        (step (step (step s (.pillarClick t)) .undo) .redo).pillars =
            (step s (.pillarClick t)).pillars ∧
          (step (step (step s (.pillarClick t)) .undo) .redo).history =
            (step s (.pillarClick t)).history ∧
          (step (step (step s (.pillarClick t)) .undo) .redo).future =
            (step s (.pillarClick t)).future ∧
          (step (step (step s (.pillarClick t)) .undo) .redo).moveCount =
            (step s (.pillarClick t)).moveCount := by
  refine ⟨undoRedo_sameSession k s hk, ?_⟩
  intro t hmove
  have hne : (step s (.pillarClick t)).history ≠ [] := by
    rw [(step_accepted_fields hmove).1]
    simp
  exact sameSession_undo_redo hne

/-- Witness for C8: two moves, one undo (History and Future hold one board
each), then one more undo and the two redos of a round trip with `k = 1`; and
the move of disk 1 to peg 1 is accepted there. -/
theorem undo_redo_round_trip_witness :
    1 ≤ exampleUndone.history.length ∧ exampleUndone.future ≠ [] ∧
      (undoRedo 1 exampleUndone).pillars = exampleUndone.pillars ∧
      (undoRedo 1 exampleUndone).future = exampleUndone.future ∧
      moveAccepted (step exampleUndone (.diskClick (diskOn 3 1 0))) 1 :=
  ⟨by decide, by decide, (undo_redo_round_trip exampleUndone 1 (by decide)).1.1,
    (undo_redo_round_trip exampleUndone 1 (by decide)).1.2.2.1, by decide⟩

/-- C9: whatever Future holds, an accepted move leaves Future empty, and a redo
right after it changes nothing. -/
theorem accepted_move_clears_future (s : GameState) (t : Fin 3) (hmove : moveAccepted s t) :
    (step s (.pillarClick t)).future = [] ∧
      handleRedo (step s (.pillarClick t)) = step s (.pillarClick t) ∧
      step (step s (.pillarClick t)) .redo = step s (.pillarClick t) := by
  have hf := (step_accepted_fields hmove).2.1
  refine ⟨hf, ?_, step_redo_nil hf⟩
  rw [handleRedo_eq, hf]
  rfl

/-- Witness for C9: after an undo (Future holds a board), disk 1 is selected
and moved to the empty peg 1, which empties Future. -/
theorem accepted_move_clears_future_witness :
    exampleUndone.future ≠ [] ∧
      moveAccepted (step exampleUndone (.diskClick (diskOn 3 1 0))) 1 ∧
      (step (step exampleUndone (.diskClick (diskOn 3 1 0))) (.pillarClick 1)).future = [] :=
  ⟨by decide, by decide,
    (accepted_move_clears_future (step exampleUndone (.diskClick (diskOn 3 1 0))) 1
      (by decide)).1⟩

/-- C10: in every state reachable from a started game with `n` disks by disk
clicks, pillar clicks, undos and redos, if peg 2 holds exactly `n` disks then
`isVictory` is true. -/
theorem victory_when_peg2_full (n : Nat) (s : GameState) (hn : 3 ≤ n) (hr : Reachable n s)
    (hfull : (s.pillars.get 2).length = n) : s.isVictory = true := by
  have h0 : 0 < n := by omega
  refine reachable_victory_flag h0 hr ?_
  rw [reachable_numDisks h0 hr]
  exact hfull

/-- Witness for C10: the seven-move solution of the 3-disk game. -/
theorem victory_when_peg2_full_witness :
    Reachable 3 (run (newGame false 3 60) solution3) ∧
      ((run (newGame false 3 60) solution3).pillars.get 2).length = 3 ∧
      (run (newGame false 3 60) solution3).isVictory = true :=
  ⟨reachable_run _ (Reachable.start false 60) (by decide), by decide,
    victory_when_peg2_full 3 _ (by decide)
      (reachable_run _ (Reachable.start false 60) (by decide)) (by decide)⟩

/-! ## The clock and the victory flag -/

theorem handler_timer (s : GameState) (a : Action) : (handler s a).timer = s.timer := by
  cases a <;> simp only [handler, handleDiskClick, handlePillarClick, handleUndo, handleRedo] <;>
    repeat (first | rfl | split)

theorem handler_timeLeft (s : GameState) (a : Action) :
    (handler s a).timeLeft = s.timeLeft := by
  cases a <;> simp only [handler, handleDiskClick, handlePillarClick, handleUndo, handleRedo] <;>
    repeat (first | rfl | split)

theorem handler_timeOut (s : GameState) (a : Action) :
    (handler s a).timeOut = s.timeOut := by
  cases a <;> simp only [handler, handleDiskClick, handlePillarClick, handleUndo, handleRedo] <;>
    repeat (first | rfl | split)

theorem step_timer (s : GameState) (a : Action) : (step s a).timer = s.timer := by
  rcases step_cases s a with h | h <;> rw [h] <;> exact handler_timer s a

theorem step_timeLeft (s : GameState) (a : Action) : (step s a).timeLeft = s.timeLeft := by
  rcases step_cases s a with h | h <;> rw [h] <;> exact handler_timeLeft s a

theorem step_timeOut (s : GameState) (a : Action) : (step s a).timeOut = s.timeOut := by
  rcases step_cases s a with h | h <;> rw [h] <;> exact handler_timeOut s a

/-- No user event of a running game resets the victory flag. -/
theorem step_isVictory_of_isVictory {s : GameState} (a : Action) (h : s.isVictory = true) :
    (step s a).isVictory = true := by
  rcases step_cases s a with h1 | h1 <;> rw [h1]
  exact (handler_isVictory s a).trans h

/-- The effects after an interval callback do nothing: the callbacks leave
every dependency of the two effects as it was. -/
theorem runEffects_countdownCallback (s : GameState) :
    runEffects s (countdownCallback s) = countdownCallback s := by
  have hn : (countdownCallback s).numDisks = s.numDisks := by
    unfold countdownCallback; split <;> rfl
  have hg : (countdownCallback s).isGameStarted = s.isGameStarted := by
    unfold countdownCallback; split <;> rfl
  have hl : (countdownCallback s).timeLimit = s.timeLimit := by
    unfold countdownCallback; split <;> rfl
  have hp : (countdownCallback s).pillars = s.pillars := by
    unfold countdownCallback; split <;> rfl
  rw [runEffects_of_same s _ hn hg hl, if_neg (not_not.mpr hp)]

theorem runEffects_timerCallback (s : GameState) :
    runEffects s (timerCallback s) = timerCallback s := by
  have hp : (timerCallback s).pillars = s.pillars := rfl
  rw [runEffects_of_same s (timerCallback s) rfl rfl rfl, if_neg (not_not.mpr hp)]

/-- While the session is terminal or not started no interval fires. -/
theorem tick_of_stopped {s : GameState} (h : s.isVictory = true ∨ s.isGameStarted = false)
    (t : Tick) : tick s t = s := by
  cases t <;> unfold tick <;> rcases h with h | h <;> simp [h]

theorem tick_countdown_of_armed {s : GameState} (hg : s.isGameStarted = true)
    (hm : s.isTimedMode = true) (hv : s.isVictory = false) :
    tick s .countdown = countdownCallback s := by
  unfold tick
  simp only [hg, hm, hv, Bool.not_true, Bool.or_self, Bool.false_eq_true, if_false]
  exact runEffects_countdownCallback s

theorem tick_elapsed_of_armed {s : GameState} (hg : s.isGameStarted = true)
    (hv : s.isVictory = false) : tick s .elapsed = timerCallback s := by
  unfold tick
  simp only [hg, hv, Bool.not_false, Bool.and_self, if_true]
  exact runEffects_timerCallback s

theorem ticks_of_stopped {s : GameState} (h : s.isVictory = true ∨ s.isGameStarted = false)
    (ts : List Tick) : ticks s ts = s := by
  induction ts with
  | nil => rfl
  | cons t ts ih => rw [ticks, tick_of_stopped h t, ih]

/-- A terminal or not-started session stays so under every event, and its two
counters do not move. -/
theorem fireAll_of_stopped (es : List Event) :
    ∀ s : GameState, (s.isVictory = true ∨ s.isGameStarted = false) →
      (fireAll s es).timer = s.timer ∧ (fireAll s es).timeLeft = s.timeLeft := by
  induction es with
  | nil => intro s _; exact ⟨rfl, rfl⟩
  | cons e es ih =>
    intro s h
    cases e with
    | user a =>
      have h2 : (step s a).isVictory = true ∨ (step s a).isGameStarted = false := by
        rcases h with h | h
        · exact Or.inl (step_isVictory_of_isVictory a h)
        · exact Or.inr ((step_isGameStarted s a).trans h)
      obtain ⟨i1, i2⟩ := ih (step s a) h2
      exact ⟨i1.trans (step_timer s a), i2.trans (step_timeLeft s a)⟩
    | clock t =>
      simp only [fireAll, fire]
      rw [tick_of_stopped h t]
      exact ih s h

/-- The countdown from an armed state: with `k` countdown firings among the
ticks, the countdown has gone down by `k` while `k` is below it, and the
session has timed out when `k` reaches it. -/
theorem ticks_countdown (ts : List Tick) :
    ∀ s : GameState, s.isGameStarted = true → s.isTimedMode = true → s.isVictory = false →
      s.timeOut = false → 1 ≤ s.timeLeft →
      (((ts.count .countdown : Nat) : Int) < s.timeLeft →
        (ticks s ts).timeLeft = s.timeLeft - (ts.count .countdown : Nat) ∧
          (ticks s ts).isVictory = false ∧ (ticks s ts).timeOut = false ∧
          (ticks s ts).isGameStarted = true ∧ (ticks s ts).moveCount = s.moveCount) ∧
      (((ts.count .countdown : Nat) : Int) = s.timeLeft →
        (ticks s ts).timeLeft = 0 ∧ (ticks s ts).isVictory = true ∧
          (ticks s ts).timeOut = true ∧ (ticks s ts).isGameStarted = true ∧
          (ticks s ts).moveCount = s.moveCount) := by
  induction ts with
  | nil =>
    intro s hg _ hv ho hl
    refine ⟨fun _ => ⟨by simp [ticks], hv, ho, hg, rfl⟩, fun h => ?_⟩
    simp only [List.count_nil, Nat.cast_zero] at h
    omega
  | cons t ts ih =>
    intro s hg hm hv ho hl
    cases t with
    | countdown =>
      have hc : (Tick.countdown :: ts).count .countdown = ts.count .countdown + 1 := by
        simp
      rw [hc]
      simp only [ticks]
      rw [tick_countdown_of_armed hg hm hv]
      by_cases h1 : s.timeLeft ≤ 1
      · have hs : countdownCallback s =
            { s with isVictory := true, timeOut := true, timeLeft := 0 } := by
          unfold countdownCallback; rw [if_pos h1]
        rw [hs, ticks_of_stopped (Or.inl rfl)]
        refine ⟨fun h => ?_, fun _ => ⟨rfl, rfl, rfl, hg, rfl⟩⟩
        push_cast at h
        omega
      · have hs : countdownCallback s = { s with timeLeft := s.timeLeft - 1 } := by
          unfold countdownCallback; rw [if_neg h1]
        rw [hs]
        obtain ⟨i1, i2⟩ := ih { s with timeLeft := s.timeLeft - 1 } hg hm hv ho
          (by show 1 ≤ s.timeLeft - 1; omega)
        refine ⟨fun h => ?_, fun h => ?_⟩
        · obtain ⟨a1, a2, a3, a4, a5⟩ := i1 (by show _ < s.timeLeft - 1; push_cast at h; omega)
          refine ⟨?_, a2, a3, a4, a5⟩
          rw [a1]
          show s.timeLeft - 1 - _ = _
          push_cast
          omega
        · exact i2 (by show _ = s.timeLeft - 1; push_cast at h; omega)
    | elapsed =>
      have hc : (Tick.elapsed :: ts).count .countdown = ts.count .countdown := by
        simp
      rw [hc]
      simp only [ticks]
      rw [tick_elapsed_of_armed hg hv]
      exact ih (timerCallback s) hg hm hv ho hl

theorem fireAll_isVictory (es : List Event) :
    ∀ s : GameState, s.isVictory = true → (fireAll s es).isVictory = true := by
  induction es with
  | nil => intro s h; exact h
  | cons e es ih =>
    intro s h
    cases e with
    | user a => exact ih (step s a) (step_isVictory_of_isVictory a h)
    | clock t =>
      simp only [fireAll, fire]
      rw [tick_of_stopped (Or.inl h) t]
      exact ih s h

theorem handleDiskClick_board (disk : Disk) (s : GameState) :
    (handleDiskClick disk s).pillars = s.pillars ∧
      (handleDiskClick disk s).history = s.history ∧
      (handleDiskClick disk s).future = s.future ∧
      (handleDiskClick disk s).moveCount = s.moveCount := by
  unfold handleDiskClick
  simp only
  split
  · split
    · exact ⟨rfl, rfl, rfl, rfl⟩
    · exact ⟨rfl, rfl, rfl, rfl⟩
  · exact ⟨rfl, rfl, rfl, rfl⟩

set_option maxRecDepth 100000 in
/-- C11 (counterexample): the solved 3-disk game is reachable and has
`isVictory` true, yet a click on disk 2 (top of peg 2) selects it and the click
on pillar 0 that follows moves it: the Board changes and the move counter goes
from 7 to 8. The handlers do not look at `isVictory`. -/
theorem clicks_after_victory_change_state :
    Reachable 3 exampleSolved ∧ exampleSolved.isVictory = true ∧
      exampleSolved.selectedDisk = none ∧ exampleSolved.moveCount = 7 ∧
      (handleDiskClick (diskOn 3 2 2) exampleSolved).selectedDisk = some (diskOn 3 2 2) ∧
      (handlePillarClick 0 (step exampleSolved (.diskClick (diskOn 3 2 2)))).pillars =
        ⟨[diskOn 3 2 0], [], [diskOn 3 0 2, diskOn 3 1 2]⟩ ∧
      (handlePillarClick 0 (step exampleSolved (.diskClick (diskOn 3 2 2)))).moveCount = 8 :=
  ⟨reachable_run _ (Reachable.start false 60) (by decide), by decide, by decide, by decide,
    by decide, by decide, by decide⟩

/-- C11 (amended): once `isVictory` is true, every further `handleDiskClick` and
`handlePillarClick` call leaves it true and leaves the timeout flag as it is
(the state stays VICTORY), also after the effects of the following render;
`handleDiskClick` leaves the Board, History, Future and move counter
unchanged. -/
theorem clicks_after_victory_stay_victory (s : GameState) (disk : Disk) (t : Fin 3)
    (hv : s.isVictory = true) :
    (handleDiskClick disk s).isVictory = true ∧
      (handleDiskClick disk s).timeOut = s.timeOut ∧
      (handleDiskClick disk s).pillars = s.pillars ∧
      (handleDiskClick disk s).history = s.history ∧
      (handleDiskClick disk s).future = s.future ∧
      (handleDiskClick disk s).moveCount = s.moveCount ∧
      (handlePillarClick t s).isVictory = true ∧
      (handlePillarClick t s).timeOut = s.timeOut ∧
      (step s (.diskClick disk)).isVictory = true ∧
      (step s (.pillarClick t)).isVictory = true := by
  obtain ⟨b1, b2, b3, b4⟩ := handleDiskClick_board disk s
  exact ⟨(handler_isVictory s (.diskClick disk)).trans hv, handler_timeOut s (.diskClick disk),
    b1, b2, b3, b4, (handler_isVictory s (.pillarClick t)).trans hv,
    handler_timeOut s (.pillarClick t), step_isVictory_of_isVictory _ hv,
    step_isVictory_of_isVictory _ hv⟩

set_option maxRecDepth 100000 in
/-- Witness for C11 (amended): the solved 3-disk game and a click on disk 2. -/
theorem clicks_after_victory_stay_victory_witness :
    exampleSolved.isVictory = true ∧
      (handleDiskClick (diskOn 3 2 2) exampleSolved).isVictory = true ∧
      (step exampleSolved (.pillarClick 0)).isVictory = true :=
  ⟨by decide,
    (clicks_after_victory_stay_victory exampleSolved (diskOn 3 2 2) 0 (by decide)).1,
    (clicks_after_victory_stay_victory exampleSolved (diskOn 3 2 2) 0 (by decide)).2.2.2.2.2.2.2.2.2⟩

/-- The events of a running game keep the victory flag: from a state with
`isVictory` true, every disk click, pillar click, undo, redo and interval
firing, and every sequence of them, yields a state with `isVictory` still
true; `handleRetry` clears the flag. -/
theorem victory_kept_by_game_events (s : GameState) (hv : s.isVictory = true) :
    (∀ a : Action, (step s a).isVictory = true) ∧
      (∀ t : Tick, (tick s t).isVictory = true) ∧
      (∀ es : List Event, (fireAll s es).isVictory = true) ∧
      (handleRetry s).isVictory = false :=
  ⟨fun a => step_isVictory_of_isVictory a hv,
    fun t => by rw [tick_of_stopped (Or.inl hv) t]; exact hv,
    fun es => fireAll_isVictory es s hv, rfl⟩

/-- C14: in a timed game with time limit `L` (at least 1) and no moves made,
let `k` be the number of countdown firings among the ticks so far (the
elapsed-time interval may fire in between). While `k < L` the countdown is
`L - k` and the session is active; when `k = L` the countdown is 0 and the
session is terminal with the timeout flag set and move counter 0. -/
theorem countdown_timeout (n : Nat) (L : Int) (ts : List Tick) (hn : 0 < n) (hL : 1 ≤ L) :
    (((ts.count .countdown : Nat) : Int) < L →
        (ticks (newGame true n L) ts).timeLeft = L - (ts.count .countdown : Nat) ∧
          (ticks (newGame true n L) ts).isVictory = false ∧
          (ticks (newGame true n L) ts).timeOut = false ∧
          (ticks (newGame true n L) ts).isGameStarted = true) ∧
      (((ts.count .countdown : Nat) : Int) = L →
        (ticks (newGame true n L) ts).timeLeft = 0 ∧
          (ticks (newGame true n L) ts).isVictory = true ∧
          (ticks (newGame true n L) ts).timeOut = true ∧
          (ticks (newGame true n L) ts).moveCount = 0) := by
  have h := ticks_countdown ts (newGame true n L)
    (by rw [newGame_eq true n L hn]) (by rw [newGame_eq true n L hn])
    (by rw [newGame_eq true n L hn]) (by rw [newGame_eq true n L hn])
    (by rw [newGame_eq true n L hn]; exact hL)
  have hl : (newGame true n L).timeLeft = L := by rw [newGame_eq true n L hn]
  have hm : (newGame true n L).moveCount = 0 := by rw [newGame_eq true n L hn]
  rw [hl, hm] at h
  exact ⟨fun hk => ⟨(h.1 hk).1, (h.1 hk).2.1, (h.1 hk).2.2.1, (h.1 hk).2.2.2.1⟩,
    fun hk => ⟨(h.2 hk).1, (h.2 hk).2.1, (h.2 hk).2.2.1, (h.2 hk).2.2.2.2⟩⟩

/-- Witness for C14: a 3-disk game with `L = 5`; two countdown firings leave 3
seconds, five end the session. -/
theorem countdown_timeout_witness :
    ((ticks (newGame true 3 5) [.countdown, .elapsed, .countdown]).timeLeft = 5 - (2 : Nat) ∧
        (ticks (newGame true 3 5) [.countdown, .elapsed, .countdown]).isVictory = false ∧
        (ticks (newGame true 3 5) [.countdown, .elapsed, .countdown]).timeOut = false ∧
        (ticks (newGame true 3 5) [.countdown, .elapsed, .countdown]).isGameStarted = true) ∧
      (ticks (newGame true 3 5)
          [.countdown, .countdown, .countdown, .countdown, .countdown]).timeLeft = 0 ∧
        (ticks (newGame true 3 5)
          [.countdown, .countdown, .countdown, .countdown, .countdown]).isVictory = true ∧
        (ticks (newGame true 3 5)
          [.countdown, .countdown, .countdown, .countdown, .countdown]).timeOut = true ∧
        (ticks (newGame true 3 5)
          [.countdown, .countdown, .countdown, .countdown, .countdown]).moveCount = 0 :=
  ⟨(countdown_timeout 3 5 [.countdown, .elapsed, .countdown] (by decide) (by decide)).1
      (by decide),
    (countdown_timeout 3 5 [.countdown, .countdown, .countdown, .countdown, .countdown]
      (by decide) (by decide)).2 (by decide)⟩

/-! ## Independence of the mode and the time limit -/

theorem handler_withConfig (isTimedMode : Bool) (limit : Int) (s : GameState) (a : Action) :
    handler (withConfig isTimedMode limit s) a = withConfig isTimedMode limit (handler s a) := by
  cases a <;>
    simp only [handler, handleDiskClick, handlePillarClick, handleUndo, handleRedo, withConfig] <;>
    repeat (first | rfl | split)

theorem victoryEffect_withConfig (isTimedMode : Bool) (limit : Int) (s : GameState) :
    victoryEffect (withConfig isTimedMode limit s) =
      withConfig isTimedMode limit (victoryEffect s) := by
  simp only [victoryEffect, withConfig]
  split <;> rfl

theorem step_withConfig (isTimedMode : Bool) (limit : Int) (s : GameState) (a : Action) :
    step (withConfig isTimedMode limit s) a = withConfig isTimedMode limit (step s a) := by
  rw [step_eq, step_eq, handler_withConfig]
  have hp : (withConfig isTimedMode limit (handler s a)).pillars = (handler s a).pillars := rfl
  have hq : (withConfig isTimedMode limit s).pillars = s.pillars := rfl
  rw [hp, hq]
  by_cases h : (handler s a).pillars ≠ s.pillars
  · rw [if_pos h, if_pos h, victoryEffect_withConfig]
  · rw [if_neg h, if_neg h]

theorem clickTopDisk_withConfig (isTimedMode : Bool) (limit : Int) (s : GameState)
    (p : Fin 3) :
    clickTopDisk (withConfig isTimedMode limit s) p =
      withConfig isTimedMode limit (clickTopDisk s p) := by
  unfold clickTopDisk
  have hq : (withConfig isTimedMode limit s).pillars = s.pillars := rfl
  rw [hq]
  cases (s.pillars.get p).getLast? with
  | none => rfl
  | some disk => exact step_withConfig isTimedMode limit s _

theorem playMove_withConfig (isTimedMode : Bool) (limit : Int) (s : GameState)
    (m : Fin 3 × Fin 3) :
    playMove (withConfig isTimedMode limit s) m =
      withConfig isTimedMode limit (playMove s m) := by
  unfold playMove
  rw [clickTopDisk_withConfig, step_withConfig]

theorem playMoves_withConfig (isTimedMode : Bool) (limit : Int) (ms : List (Fin 3 × Fin 3)) :
    ∀ s : GameState, playMoves (withConfig isTimedMode limit s) ms =
      withConfig isTimedMode limit (playMoves s ms) := by
  induction ms with
  | nil => intro s; rfl
  | cons m ms ih =>
    intro s
    simp only [playMoves]
    rw [playMove_withConfig, ih]

theorem movesAccepted_withConfig (isTimedMode : Bool) (limit : Int)
    (ms : List (Fin 3 × Fin 3)) :
    ∀ s : GameState, movesAccepted (withConfig isTimedMode limit s) ms = movesAccepted s ms := by
  induction ms with
  | nil => intro s; rfl
  | cons m ms ih =>
    intro s
    simp only [movesAccepted]
    rw [playMove_withConfig, ih, clickTopDisk_withConfig]
    rfl

theorem newGame_withConfig (isTimedMode : Bool) (n : Nat) (limit : Int) (hn : 0 < n) :
    newGame isTimedMode n limit = withConfig isTimedMode limit (newGame false n 60) := by
  rw [newGame_eq isTimedMode n limit hn, newGame_eq false n 60 hn]
  rfl

set_option maxRecDepth 100000 in
/-- C13: in a 3-disk game (story or timed mode, any time limit), the seven
moves (0->2),(0->1),(2->1),(0->2),(1->0),(1->2),(0->2), each made as a click on
the source peg's top disk followed by a click on the destination pillar, are
all accepted, and the final state has the three disks on peg 2, `isVictory`
true, `timeOut` false and move counter 7. -/
theorem three_disk_solution (isTimedMode : Bool) (limit : Int) :
    movesAccepted (newGame isTimedMode 3 limit) solutionMoves3 = true ∧
      (playMoves (newGame isTimedMode 3 limit) solutionMoves3).pillars =
        ⟨[], [], [diskOn 3 0 2, diskOn 3 1 2, diskOn 3 2 2]⟩ ∧
      (playMoves (newGame isTimedMode 3 limit) solutionMoves3).isVictory = true ∧
      (playMoves (newGame isTimedMode 3 limit) solutionMoves3).timeOut = false ∧
      (playMoves (newGame isTimedMode 3 limit) solutionMoves3).moveCount = 7 := by
  rw [newGame_withConfig isTimedMode 3 limit (by decide), movesAccepted_withConfig,
    playMoves_withConfig]
  have h1 : movesAccepted (newGame false 3 60) solutionMoves3 = true := by decide
  have h2 : (playMoves (newGame false 3 60) solutionMoves3).pillars =
      ⟨[], [], [diskOn 3 0 2, diskOn 3 1 2, diskOn 3 2 2]⟩ := by decide
  have h3 : (playMoves (newGame false 3 60) solutionMoves3).isVictory = true := by decide
  have h4 : (playMoves (newGame false 3 60) solutionMoves3).timeOut = false := by decide
  have h5 : (playMoves (newGame false 3 60) solutionMoves3).moveCount = 7 := by decide
  have e : ∀ x : GameState, (withConfig isTimedMode limit x).pillars = x.pillars ∧
      (withConfig isTimedMode limit x).isVictory = x.isVictory ∧
      (withConfig isTimedMode limit x).timeOut = x.timeOut ∧
      (withConfig isTimedMode limit x).moveCount = x.moveCount :=
    fun _ => ⟨rfl, rfl, rfl, rfl⟩
  obtain ⟨e1, e2, e3, e4⟩ := e (playMoves (newGame false 3 60) solutionMoves3)
  exact ⟨h1, e1.trans h2, e2.trans h3, e3.trans h4, e4.trans h5⟩

/-! ## Start of a game -/

theorem generateDisks_length (numDisks count : Nat) :
    (generateDisks numDisks count).length = min count 7 := by
  have h : (diskSizes numDisks).length = 7 := by
    unfold diskSizes
    split <;> rfl
  simp [generateDisks, h]

theorem generateDisks_eq_diskOn (n : Nat) (h3 : 3 ≤ n) (h7 : n ≤ 7) :
    generateDisks n n = (List.range n).map fun i => diskOn n i 0 := by
  interval_cases n <;> decide

/-- C16: starting a game with `n` disks (3 to 7) and time limit `L` gives the
state below: peg 0 holds the disks of `generateDisks`, pegs 1 and 2 are empty,
move counter 0, History and Future empty, no selection, elapsed time 0,
countdown `L`, victory and timeout flags false. Peg 0 has exactly `n` disks
with ids 0..n-1 from bottom to top, strictly descending and pairwise distinct
sizes, and every disk has `pillarIndex` 0. -/
theorem newGame_initial_state (isTimedMode : Bool) (n : Nat) (L : Int) (h3 : 3 ≤ n)
    (h7 : n ≤ 7) :
    newGame isTimedMode n L =
        { isTimedMode := isTimedMode
          numDisks := n
          selectedDisk := none
          moveCount := 0
          pillars := ⟨generateDisks n n, [], []⟩
          timer := 0
          history := []
          future := []
          isGameStarted := true
          isVictory := false
          timeLimit := L
          timeLeft := L
          timeOut := false } ∧
      (generateDisks n n).length = n ∧
      (generateDisks n n).map Disk.id = List.range n ∧
      pegSorted (generateDisks n n) ∧
      ((generateDisks n n).map Disk.size).Nodup ∧
      (∀ d ∈ generateDisks n n, d.pillarIndex = 0) ∧
      generateDisks n n = (List.range n).map fun i => diskOn n i 0 := by
  refine ⟨newGame_eq isTimedMode n L (by omega), ?_, generateDisks_ids n h3 h7,
    generateDisks_sorted n h3 h7, ?_, ?_, generateDisks_eq_diskOn n h3 h7⟩
  · rw [generateDisks_length]
    omega
  · interval_cases n <;> decide
  · interval_cases n <;> decide

/-- Witness for C16: the 5-disk game, which uses the adjusted size table. -/
theorem newGame_initial_state_witness :
    (newGame true 5 30).pillars = ⟨generateDisks 5 5, [], []⟩ ∧
      (generateDisks 5 5).map Disk.size = [4, mkRat 35 10, 3, mkRat 25 10, 2] ∧
      (generateDisks 5 5).map Disk.id = List.range 5 :=
  ⟨congrArg GameState.pillars (newGame_initial_state true 5 30 (by decide) (by decide)).1,
    by decide, (newGame_initial_state true 5 30 (by decide) (by decide)).2.2.1⟩

/-- C17 (counterexample): a start with 2 disks and a start with 8 disks report
nothing and produce a started game: with 2 disks on peg 0, and with 7 disks on
peg 0 while `numDisks` is 8. -/
theorem out_of_range_count_starts_game :
    (newGame false 2 60).isGameStarted = true ∧
      (newGame false 2 60).pillars = ⟨[diskOn 2 0 0, diskOn 2 1 0], [], []⟩ ∧
      (newGame false 8 60).isGameStarted = true ∧
      (newGame false 8 60).numDisks = 8 ∧
      (newGame false 8 60).pillars.peg0.length = 7 ∧
      generateDisks 0 0 = [] :=
  ⟨by decide, by decide, by decide, by decide, by decide, by decide⟩

/-- C17 (amended): a start with any disk count `n` of at least 1, inside or
outside 3..7, reports no error: the game is started and the Board has
`min n 7` disks on peg 0 and no disk on pegs 1 and 2. `generateDisks` and the
init effect make no range check; the range is that of the slider. -/
theorem start_without_range_check (isTimedMode : Bool) (n : Nat) (L : Int) (hn : 0 < n) :
    (newGame isTimedMode n L).isGameStarted = true ∧
      (newGame isTimedMode n L).numDisks = n ∧
      (newGame isTimedMode n L).pillars = ⟨generateDisks n n, [], []⟩ ∧
      (generateDisks n n).length = min n 7 := by
  rw [newGame_eq isTimedMode n L hn]
  exact ⟨rfl, rfl, rfl, generateDisks_length n n⟩

/-- Witness for C17 (amended): a count of 9. -/
theorem start_without_range_check_witness :
    (newGame false 9 60).isGameStarted = true ∧ (generateDisks 9 9).length = min 9 7 :=
  ⟨(start_without_range_check false 9 60 (by decide)).1,
    (start_without_range_check false 9 60 (by decide)).2.2.2⟩

/-! ## Selection -/

theorem movedBoard_pillarIndex {b : Board} {d : Disk} {t : Fin 3} (hne : d.pillarIndex ≠ t)
    (hb : ∀ p : Fin 3, ∀ x ∈ b.get p, x.pillarIndex = p) :
    ∀ p : Fin 3, ∀ x ∈ (movedBoard b d t).get p, x.pillarIndex = p := by
  intro p x hx
  rw [movedBoard_get b d t hne p] at hx
  split_ifs at hx with h1 h2
  · rcases List.mem_append.mp hx with h | h
    · rw [h1]; exact hb t x h
    · rw [List.mem_singleton.mp h, h1]
  · rw [h2]; exact hb d.pillarIndex x (List.mem_filter.mp hx).1
  · exact hb p x hx

/-- In every reachable state the current board is consistent: each disk
records the peg it stands on and no peg holds a disk id twice. -/
theorem reachable_consistent {n : Nat} {s : GameState} (h3 : 3 ≤ n) (h7 : n ≤ 7)
    (hr : Reachable n s) : s.pillars.consistent := by
  have hinit : ∀ p : Fin 3, ∀ x ∈ (Board.mk (generateDisks n n) [] []).get p,
      x.pillarIndex = p := by
    intro p x hx
    fin_cases p
    · have h : ∀ d ∈ generateDisks n n, d.pillarIndex = 0 := by
        interval_cases n <;> decide
      exact h x hx
    · cases hx
    · cases hx
  have h := reachable_boardInv (P := fun b => ∀ p : Fin 3, ∀ x ∈ b.get p, x.pillarIndex = p)
    (Q := fun _ => True) (by omega) hinit
    (fun b d t hb _ hne _ => movedBoard_pillarIndex hne hb) (fun _ _ _ _ => trivial) hr
  exact fun p => ⟨h.cur p, reachable_peg_ids_nodup h3 h7 hr p⟩

/-- C18: on a consistent board (each disk records its peg and no peg holds an
id twice, as in every reachable state), a click on a disk that is on a peg but
is not the topmost disk of that peg leaves the entire state unchanged, also
after the effects of the following render. -/
theorem handleDiskClick_buried_disk (s : GameState) (disk : Disk) (p : Fin 3)
    (hc : s.pillars.consistent) (hmem : disk ∈ s.pillars.get p)
    (hnot : (s.pillars.get p).getLast? ≠ some disk) :
    handleDiskClick disk s = s ∧ step s (.diskClick disk) = s := by
  have hp : disk.pillarIndex = p := (hc p).1 disk hmem
  have h : handleDiskClick disk s = s := by
    unfold handleDiskClick
    simp only
    rw [hp]
    cases hl : (s.pillars.get p).getLast? with
    | none => rfl
    | some top =>
      simp only
      have hne : top.id ≠ disk.id := by
        intro hid
        have htop : top ∈ s.pillars.get p := getLast?_mem hl
        have heq : top = disk := List.inj_on_of_nodup_map (hc p).2 htop hmem hid
        rw [hl, heq] at hnot
        exact hnot rfl
      rw [if_neg hne]
  refine ⟨h, ?_⟩
  rw [step_eq]
  simp only [handler]
  rw [h]
  simp

/-- Witness for C18: in the fresh 3-disk game disk 1 lies under disk 2. -/
theorem handleDiskClick_buried_disk_witness :
    (newGame false 3 60).pillars.consistent ∧
      diskOn 3 1 0 ∈ (newGame false 3 60).pillars.get 0 ∧
      handleDiskClick (diskOn 3 1 0) (newGame false 3 60) = newGame false 3 60 :=
  ⟨reachable_consistent (by decide) (by decide) (Reachable.start false 60), by decide,
    (handleDiskClick_buried_disk (newGame false 3 60) (diskOn 3 1 0) 0
      (reachable_consistent (by decide) (by decide) (Reachable.start false 60)) (by decide)
      (by decide)).1⟩

/-- C19 (counterexample): with disk 2 selected on peg 0 of a 3-disk game, a
click on disk 2 leaves it selected. -/
theorem reselect_keeps_selection :
    exampleSelected.selectedDisk = some (diskOn 3 2 0) ∧
      (handleDiskClick (diskOn 3 2 0) exampleSelected).selectedDisk = some (diskOn 3 2 0) ∧
      (handleDiskClick (diskOn 3 2 0) exampleSelected).selectedDisk ≠ none :=
  ⟨by decide, by decide, by decide⟩

/-- C19 (amended): a click on the disk that is already the selected disk
changes nothing: for every state whose selected disk is `d`,
`handleDiskClick d` returns the state as it is, with `d` still selected. -/
theorem handleDiskClick_selected_disk (s : GameState) (d : Disk)
    (hsel : s.selectedDisk = some d) :
    handleDiskClick d s = s ∧ (handleDiskClick d s).selectedDisk = some d ∧
      step s (.diskClick d) = s := by
  have hs : { s with selectedDisk := some d } = s := by
    cases s
    simp only at hsel
    subst hsel
    rfl
  have h : handleDiskClick d s = s := by
    unfold handleDiskClick
    simp only
    split
    · split
      · exact hs
      · rfl
    · rfl
  refine ⟨h, by rw [h]; exact hsel, ?_⟩
  rw [step_eq]
  simp only [handler]
  rw [h]
  simp

/-- Witness for C19 (amended): disk 2 selected on peg 0 of a 3-disk game. -/
theorem handleDiskClick_selected_disk_witness :
    exampleSelected.selectedDisk = some (diskOn 3 2 0) ∧
      handleDiskClick (diskOn 3 2 0) exampleSelected = exampleSelected :=
  ⟨by decide, (handleDiskClick_selected_disk exampleSelected (diskOn 3 2 0) (by decide)).1⟩

/-- C20: `handlePillarClick p` with no disk selected leaves the whole state
unchanged; with a selected disk whose `pillarIndex` is `p` it clears the
selection and changes nothing else (Board, History, Future and move counter
stay as they were). The effects of the following render change nothing. -/
theorem handlePillarClick_no_move (s : GameState) (p : Fin 3) :
    (s.selectedDisk = none →
        handlePillarClick p s = s ∧ step s (.pillarClick p) = s) ∧
      (∀ d : Disk, s.selectedDisk = some d → d.pillarIndex = p →
        handlePillarClick p s = { s with selectedDisk := none } ∧
          step s (.pillarClick p) = { s with selectedDisk := none }) := by
  refine ⟨fun hnone => ?_, fun d hsel hp => ?_⟩
  · have h : handlePillarClick p s = s := by
      rw [handlePillarClick_eq, hnone]
    refine ⟨h, ?_⟩
    rw [step_eq]
    simp only [handler]
    rw [h]
    simp
  · have h : handlePillarClick p s = { s with selectedDisk := none } := by
      rw [handlePillarClick_eq, hsel]
      simp only
      rw [if_pos hp]
    refine ⟨h, ?_⟩
    rw [step_eq]
    simp only [handler]
    rw [h]
    simp

/-- Witness for C20: a pillar click in the fresh 3-disk game (nothing selected)
and a click on pillar 0 while disk 2 is selected on peg 0. -/
theorem handlePillarClick_no_move_witness :
    (newGame false 3 60).selectedDisk = none ∧
      handlePillarClick 1 (newGame false 3 60) = newGame false 3 60 ∧
      exampleSelected.selectedDisk = some (diskOn 3 2 0) ∧
      handlePillarClick 0 exampleSelected = { exampleSelected with selectedDisk := none } :=
  ⟨by decide, ((handlePillarClick_no_move (newGame false 3 60) 1).1 (by decide)).1, by decide,
    ((handlePillarClick_no_move exampleSelected 0).2 (diskOn 3 2 0) (by decide) (by decide)).1⟩

/-! ## Empty History and Future -/

theorem step_undo_nil {s : GameState} (h : s.history = []) : step s .undo = s := by
  have hu : handleUndo s = s := by
    rw [handleUndo_eq, h]
    rfl
  rw [step_eq]
  simp only [handler]
  rw [hu]
  simp

/-- C21: `handleUndo` on a state with empty History and `handleRedo` on a state
with empty Future return the state unchanged (Board, History, Future, selection
and move counter included), and so do the events with their effects; in
particular an undo right after the start of a 3-disk game changes nothing. -/
theorem undo_redo_on_empty (s : GameState) :
    (s.history = [] → handleUndo s = s ∧ step s .undo = s) ∧
      (s.future = [] → handleRedo s = s ∧ step s .redo = s) ∧
      ∀ (isTimedMode : Bool) (limit : Int),
        step (newGame isTimedMode 3 limit) .undo = newGame isTimedMode 3 limit := by
  refine ⟨fun h => ⟨?_, step_undo_nil h⟩, fun h => ⟨?_, step_redo_nil h⟩, ?_⟩
  · rw [handleUndo_eq, h]
    rfl
  · rw [handleRedo_eq, h]
    rfl
  · intro isTimedMode limit
    refine step_undo_nil ?_
    rw [newGame_eq isTimedMode 3 limit (by decide)]

/-- Witness for C21: the fresh 3-disk game (History and Future empty). -/
theorem undo_redo_on_empty_witness :
    (newGame false 3 60).history = [] ∧ handleUndo (newGame false 3 60) = newGame false 3 60 ∧
      step (newGame false 3 60) .redo = newGame false 3 60 :=
  ⟨by decide, ((undo_redo_on_empty (newGame false 3 60)).1 (by decide)).1,
    ((undo_redo_on_empty (newGame false 3 60)).2.1 (by decide)).2⟩

/-! ## The disks of a reachable board -/

theorem generateDisks_pillarIndex (n : Nat) (h3 : 3 ≤ n) (h7 : n ≤ 7) :
    ∀ p : Fin 3, ∀ x ∈ (Board.mk (generateDisks n n) [] []).get p, x.pillarIndex = p := by
  intro p x hx
  fin_cases p
  · have h : ∀ d ∈ generateDisks n n, d.pillarIndex = 0 := by
      interval_cases n <;> decide
    exact h x hx
  · cases hx
  · cases hx

/-- C28: in every state reachable from a started game (3 to 7 disks), on the
current board and on every snapshot in History and Future, each disk stored in
peg `p` has `pillarIndex` equal to `p`; so the peg that `handleDiskClick` looks
up for a rendered disk is the peg that holds it. -/
theorem reachable_pillarIndex (n : Nat) (s : GameState) (h3 : 3 ≤ n) (h7 : n ≤ 7)
    (hr : Reachable n s) :
    (∀ p : Fin 3, ∀ d ∈ s.pillars.get p, d.pillarIndex = p) ∧
      (∀ b ∈ s.history, ∀ p : Fin 3, ∀ d ∈ b.get p, d.pillarIndex = p) ∧
      (∀ b ∈ s.future, ∀ p : Fin 3, ∀ d ∈ b.get p, d.pillarIndex = p) ∧
      (∀ d ∈ s.pillars.disks, d ∈ s.pillars.get d.pillarIndex) := by
  have h := reachable_boardInv (P := fun b => ∀ p : Fin 3, ∀ x ∈ b.get p, x.pillarIndex = p)
    (Q := fun _ => True) (by omega) (generateDisks_pillarIndex n h3 h7)
    (fun b d t hb _ hne _ => movedBoard_pillarIndex hne hb) (fun _ _ _ _ => trivial) hr
  refine ⟨h.cur, h.hist, h.fut, ?_⟩
  intro d hd
  obtain ⟨p, hp⟩ := Board.mem_disks.mp hd
  rw [h.cur p d hp]
  exact hp

/-- Witness for C28: the 3-disk game after two moves and an undo. -/
theorem reachable_pillarIndex_witness :
    Reachable 3 exampleUndone ∧ exampleUndone.future ≠ [] ∧
      ∀ d ∈ exampleUndone.pillars.disks, d ∈ exampleUndone.pillars.get d.pillarIndex :=
  ⟨reachable_run _ (Reachable.start false 60) (by decide), by decide,
    (reachable_pillarIndex 3 exampleUndone (by decide) (by decide)
      (reachable_run _ (Reachable.start false 60) (by decide))).2.2.2⟩

/-! ## The victory check -/

/-- In both size tables a later entry is never larger than an earlier one. -/
theorem diskSizes_antitone (n : Nat) :
    ∀ i < 7, ∀ j < 7, j ≤ i → (diskSizes n).getD i 0 ≤ (diskSizes n).getD j 0 := by
  unfold diskSizes
  split <;> decide

/-- A strictly increasing list of `n` numbers below `n` is `0, ..., n-1`. -/
theorem eq_range_of_pairwise_lt {n : Nat} {l : List Nat} (hs : l.Pairwise (· < ·))
    (hb : ∀ x ∈ l, x < n) (hl : l.length = n) : l = List.range n := by
  have hnd : l.Nodup := hs.imp (fun h => Nat.ne_of_lt h)
  have hsub : l ⊆ List.range n := fun x hx => List.mem_range.mpr (hb x hx)
  have hperm : l.Perm (List.range n) :=
    (List.subperm_of_subset hnd hsub).perm_of_length_le (by simp [hl])
  exact List.eq_of_perm_of_sorted hperm hs (List.sorted_lt_range n)

/-- A sorted peg whose disks are the original disks of an `n`-disk game, and
which holds `n` of them, is the original stack. -/
theorem peg_eq_fullStack {n : Nat} {p : Fin 3} {peg : List Disk} (h7 : n ≤ 7)
    (hs : pegSorted peg) (ho : ∀ x ∈ peg, x = diskOn n x.id p ∧ x.id < n)
    (hl : peg.length = n) : peg = fullStack n p := by
  have hids : (peg.map Disk.id).Pairwise (· < ·) := by
    rw [List.pairwise_map]
    refine List.Pairwise.imp_of_mem ?_ hs
    intro a b ha hb hgt
    by_contra hlt
    have h1 := diskSizes_antitone n a.id (by have := (ho a ha).2; omega) b.id
      (by have := (ho b hb).2; omega) (by omega)
    have ea : a.size = (diskSizes n).getD a.id 0 := by
      have h := congrArg Disk.size (ho a ha).1
      exact h
    have eb : b.size = (diskSizes n).getD b.id 0 := by
      have h := congrArg Disk.size (ho b hb).1
      exact h
    rw [ea, eb] at hgt
    exact absurd hgt (not_lt.mpr h1)
  have hrange : peg.map Disk.id = List.range n :=
    eq_range_of_pairwise_lt hids
      (fun x hx => by
        obtain ⟨d, hd, rfl⟩ := List.mem_map.mp hx
        exact (ho d hd).2)
      (by rw [List.length_map, hl])
  have hmap : peg = (peg.map Disk.id).map fun i => diskOn n i p := by
    rw [List.map_map]
    conv_lhs => rw [← List.map_id peg]
    exact List.map_congr_left (fun x hx => (ho x hx).1)
  rw [hmap, hrange]
  rfl

/-- In every reachable state each peg is sorted and holds original disks only:
a disk on peg `p` is `diskOn n id p` for an id below `n`. -/
theorem reachable_original_disks {n : Nat} {s : GameState} (h3 : 3 ≤ n) (h7 : n ≤ 7)
    (hr : Reachable n s) :
    s.pillars.sorted ∧ ∀ p : Fin 3, ∀ x ∈ s.pillars.get p, x = diskOn n x.id p ∧ x.id < n := by
  have hinit : Board.sorted ⟨generateDisks n n, [], []⟩ ∧
      ∀ p : Fin 3, ∀ x ∈ (Board.mk (generateDisks n n) [] []).get p,
        x = diskOn n x.id p ∧ x.id < n := by
    refine ⟨?_, ?_⟩
    · intro i
      fin_cases i
      · exact generateDisks_sorted n h3 h7
      · exact List.Pairwise.nil
      · exact List.Pairwise.nil
    · intro p x hx
      fin_cases p
      · have hx2 : x ∈ generateDisks n n := hx
        rw [generateDisks_eq_diskOn n h3 h7] at hx2
        obtain ⟨i, hi, rfl⟩ := List.mem_map.mp hx2
        exact ⟨rfl, List.mem_range.mp hi⟩
      · cases hx
      · cases hx
  have h := reachable_boardInv
    (P := fun b => b.sorted ∧ ∀ p : Fin 3, ∀ x ∈ b.get p, x = diskOn n x.id p ∧ x.id < n)
    (Q := fun d => d = diskOn n d.id d.pillarIndex ∧ d.id < n) (by omega) hinit
    (fun b d t hb hd hne hc => ⟨movedBoard_sorted hb.1 hne hc, fun p x hx => by
      rw [movedBoard_get b d t hne p] at hx
      split_ifs at hx with h1 h2
      · rcases List.mem_append.mp hx with h | h
        · rw [h1]; exact hb.2 t x h
        · rw [List.mem_singleton.mp h, h1]
          refine ⟨?_, hd.2⟩
          conv_lhs => rw [hd.1]
          rfl
      · rw [h2]; exact hb.2 d.pillarIndex x (List.mem_filter.mp hx).1
      · exact hb.2 p x hx⟩)
    (fun b d hb hd => by
      obtain ⟨p, hp⟩ := Board.mem_disks.mp hd
      have h := hb.2 p d hp
      have hpi : d.pillarIndex = p := by
        have h2 := congrArg Disk.pillarIndex h.1
        exact h2
      rw [hpi]
      exact h) hr
  exact h.cur

/-- C24: on every board reachable in a session with `n` disks (3 to 7), peg 2
holds exactly `n` disks if and only if peg 2 is the original stack: each of
the disks 0..n-1 exactly once, from bottom to top in the original order of
strictly decreasing size. -/
theorem victory_check_equivalent (n : Nat) (s : GameState) (h3 : 3 ≤ n) (h7 : n ≤ 7)
    (hr : Reachable n s) :
    ((s.pillars.get 2).length = n ↔ s.pillars.get 2 = fullStack n 2) ∧
      (s.pillars.get 2 = fullStack n 2 →
        (s.pillars.get 2).map Disk.id = List.range n ∧ pegSorted (s.pillars.get 2)) := by
  obtain ⟨hs, ho⟩ := reachable_original_disks h3 h7 hr
  refine ⟨⟨fun hl => peg_eq_fullStack h7 (hs 2) (ho 2) hl, fun h => ?_⟩, fun h => ⟨?_, hs 2⟩⟩
  · rw [h]
    simp [fullStack]
  · rw [h]
    simp only [fullStack, List.map_map]
    exact List.map_id _

set_option maxRecDepth 100000 in
/-- Witness for C24: the solved 3-disk game, and the fresh one (peg 2 empty). -/
theorem victory_check_equivalent_witness :
    Reachable 3 exampleSolved ∧ (exampleSolved.pillars.get 2).length = 3 ∧
      exampleSolved.pillars.get 2 = fullStack 3 2 ∧
      ((newGame false 3 60).pillars.get 2).length ≠ 3 :=
  ⟨reachable_run _ (Reachable.start false 60) (by decide), by decide,
    (victory_check_equivalent 3 exampleSolved (by decide) (by decide)
      (reachable_run _ (Reachable.start false 60) (by decide))).1.mp (by decide),
    by decide⟩

set_option maxRecDepth 100000 in
/-- C25 (evaluation of the code at the failing input): in a 3-disk game, disk 0
is selected once disks 2 and 1 have been moved off it, two undos put them back
while the selection stays, and a click on pillar 2 takes disk 0 from under them
(move counter 1); disk 1 follows the same way (move counter 2) and disk 2 is
moved on top. Peg 2 then holds all three disks, `isVictory` is true and the
move counter is 3. -/
theorem stale_selection_solves_in_three :
    Reachable 3 (run (newGame false 3 60) shortcut3) ∧
      (run (newGame false 3 60) shortcut3).pillars = ⟨[], [], fullStack 3 2⟩ ∧
      (run (newGame false 3 60) shortcut3).moveCount = 3 ∧
      (run (newGame false 3 60) shortcut3).isVictory = true :=
  ⟨reachable_run _ (Reachable.start false 60) (by decide), by decide, by decide, by decide⟩

/-! ## Retry and the start menu -/

set_option maxRecDepth 100000 in
/-- C23 (evaluation of the code at the failing input): `handleRetry` never
touches `pillars` (nor the countdown). After Retry on the solved 3-disk game
the state is not started, with flags, counters, selection, History and Future
reset, but the Board is still the finished board with the three disks on
peg 2, not the empty initial board. -/
theorem retry_keeps_finished_board :
    (∀ s : GameState, (handleRetry s).pillars = s.pillars ∧
        (handleRetry s).timeLeft = s.timeLeft) ∧
      (handleRetry exampleSolved).isGameStarted = false ∧
      (handleRetry exampleSolved).isVictory = false ∧
      (handleRetry exampleSolved).moveCount = 0 ∧
      (handleRetry exampleSolved).pillars = ⟨[], [], fullStack 3 2⟩ ∧
      (sceneStep exampleSolved .retry).pillars = ⟨[], [], fullStack 3 2⟩ ∧
      (initialState false).pillars = ⟨[], [], []⟩ :=
  ⟨fun _ => ⟨rfl, rfl⟩, by decide, by decide, by decide, by decide, by decide, by decide⟩

/-- After the effects, move counter and History are those of the handler's
state or those set by the init effect. -/
theorem runEffects_counter_cases (prev next : GameState) :
    ((runEffects prev next).moveCount = next.moveCount ∧
        (runEffects prev next).history = next.history) ∨
      ((runEffects prev next).moveCount = 0 ∧ (runEffects prev next).history = []) := by
  simp only [runEffects, afterFirstCommit, afterInitEffect, initEffect, victoryEffect]
  split_ifs <;> first | exact Or.inl ⟨rfl, rfl⟩ | exact Or.inr ⟨rfl, rfl⟩

theorem runEffects_counter {prev next : GameState}
    (h : next.moveCount = (next.history.length : Int)) :
    (runEffects prev next).moveCount = ((runEffects prev next).history.length : Int) := by
  rcases runEffects_counter_cases prev next with ⟨h1, h2⟩ | ⟨h1, h2⟩
  · rw [h1, h2]; exact h
  · rw [h1, h2]; rfl

theorem handler_counter {s : GameState} (a : Action)
    (h : s.moveCount = (s.history.length : Int)) :
    (handler s a).moveCount = ((handler s a).history.length : Int) := by
  cases a with
  | diskClick disk =>
    obtain ⟨_, b2, _, b4⟩ := handleDiskClick_board disk s
    show (handleDiskClick disk s).moveCount = _
    rw [b4, show (handler s (.diskClick disk)).history = s.history from b2]
    exact h
  | pillarClick t =>
    simp only [handler]
    rw [handlePillarClick_eq]
    cases s.selectedDisk with
    | none => exact h
    | some d =>
      simp only
      split_ifs
      · exact h
      · show s.moveCount + 1 = ((s.history ++ [s.pillars]).length : Int)
        rw [List.length_append, List.length_singleton, h]
        push_cast
        rfl
      · exact h
  | undo =>
    simp only [handler]
    rw [handleUndo_eq]
    cases hl : s.history.getLast? with
    | none => exact h
    | some prev =>
      show s.moveCount - 1 = (s.history.dropLast.length : Int)
      have hne : s.history ≠ [] := by
        intro h0
        rw [h0] at hl
        cases hl
      have hpos : 0 < s.history.length := List.length_pos.mpr hne
      rw [List.length_dropLast, h]
      omega
  | redo =>
    simp only [handler]
    rw [handleRedo_eq]
    cases s.future.getLast? with
    | none => exact h
    | some next =>
      show s.moveCount + 1 = ((s.history ++ [s.pillars]).length : Int)
      rw [List.length_append, List.length_singleton, h]
      push_cast
      rfl

theorem sceneStep_counter {s : GameState} (e : SceneEvent)
    (h : s.moveCount = (s.history.length : Int)) :
    (sceneStep s e).moveCount = ((sceneStep s e).history.length : Int) := by
  cases e with
  | user a => exact runEffects_counter (handler_counter a h)
  | retry => exact runEffects_counter rfl
  | diskSlider n => exact runEffects_counter h
  | timeSlider limit => exact runEffects_counter h
  | start => exact runEffects_counter h
  | clock t =>
    cases t with
    | countdown =>
      simp only [sceneStep, tick]
      split_ifs
      · exact h
      · refine runEffects_counter ?_
        unfold countdownCallback
        split_ifs <;> exact h
    | elapsed =>
      simp only [sceneStep, tick]
      split_ifs
      · exact runEffects_counter h
      · exact h

/-- Running an offered sequence of scene events from a reachable state of the
scene stays reachable. -/
theorem sceneReachable_run {isTimedMode : Bool} (es : List SceneEvent) :
    ∀ {s : GameState}, SceneReachable isTimedMode s → sceneValid s es = true →
      SceneReachable isTimedMode (sceneRun s es) := by
  induction es with
  | nil => intro s hr _; exact hr
  | cons e es ih =>
    intro s hr hv
    simp only [sceneValid, Bool.and_eq_true, decide_eq_true_eq] at hv
    exact ih (SceneReachable.step e hr hv.1) hv.2

/-- C26: in every state of the scene reachable from the mounted component
(start, disk clicks, pillar clicks, undos, redos, retry, sliders and ticks) the
move counter equals the length of History; so it is never negative, and the
Undo button is enabled exactly when the move counter is positive. -/
theorem moveCount_eq_history_length (isTimedMode : Bool) (s : GameState)
    (hr : SceneReachable isTimedMode s) :
    s.moveCount = (s.history.length : Int) ∧ 0 ≤ s.moveCount ∧
      (undoDisabled s = false ↔ 0 < s.moveCount) := by
  have h : s.moveCount = (s.history.length : Int) := by
    induction hr with
    | mount => rfl
    | step e _ _ ih => exact sceneStep_counter e ih
  refine ⟨h, by rw [h]; exact Int.natCast_nonneg _, ?_⟩
  rw [h]
  unfold undoDisabled
  cases hl : s.history.length with
  | zero => simp
  | succ k => simp

set_option maxRecDepth 100000 in
/-- Witness for C26: a 3-disk game solved, retried, started again and played
for one move. -/
theorem moveCount_eq_history_length_witness :
    SceneReachable false (sceneRun (initialState false)
        ([.start] ++ solution3.map .user ++
          [.retry, .start, .user (.diskClick (diskOn 3 2 0)), .user (.pillarClick 1)])) ∧
      (sceneRun (initialState false)
        ([.start] ++ solution3.map .user ++
          [.retry, .start, .user (.diskClick (diskOn 3 2 0)),
            .user (.pillarClick 1)])).moveCount = ((sceneRun (initialState false)
        ([.start] ++ solution3.map .user ++
          [.retry, .start, .user (.diskClick (diskOn 3 2 0)),
            .user (.pillarClick 1)])).history.length : Int) :=
  ⟨sceneReachable_run _ SceneReachable.mount (by decide),
    (moveCount_eq_history_length false _
      (sceneReachable_run _ SceneReachable.mount (by decide))).1⟩

set_option maxRecDepth 100000 in
/-- C27 (evaluation of the code at the failing input): start a 3-disk game,
solve it, press Retry, move the disk slider to 4 and back to 3. Retry leaves
the finished board in `pillars`, and the victory effect re-runs when
`numDisks` changes: with the slider back at 3, peg 2 of the stale board holds
3 disks and `isVictory` is set while the game is not started. -/
theorem victory_banner_over_start_menu :
    SceneReachable false (sceneRun (initialState false) retryThenSlider) ∧
      (sceneRun (initialState false) retryThenSlider).isVictory = true ∧
      (sceneRun (initialState false) retryThenSlider).isGameStarted = false ∧
      (sceneRun (initialState false) retryThenSlider).numDisks = 3 ∧
      (sceneRun (initialState false) retryThenSlider).pillars = ⟨[], [], fullStack 3 2⟩ :=
  ⟨sceneReachable_run _ SceneReachable.mount (by decide), by decide, by decide, by decide,
    by decide⟩

/-! ## Leaderboard -/

/-- The comparator orders records by moves, then by time. -/
theorem scoreLe_iff_lexLe (a b : Score) : scoreLe a b ↔ lexLe a b := by
  unfold scoreLe compareScores lexLe
  split_ifs with h
  · constructor
    · intro h1; exact Or.inl (by omega)
    · rintro (h1 | ⟨h1, _⟩) <;> omega
  · constructor
    · intro h1; exact Or.inr ⟨by omega, by omega⟩
    · rintro (h1 | ⟨_, h2⟩) <;> omega

theorem scoreLe_total (a b : Score) : scoreLe a b ∨ scoreLe b a := by
  rw [scoreLe_iff_lexLe, scoreLe_iff_lexLe]
  unfold lexLe
  omega

theorem scoreLe_trans {a b c : Score} (h1 : scoreLe a b) (h2 : scoreLe b c) : scoreLe a c := by
  rw [scoreLe_iff_lexLe] at h1 h2 ⊢
  unfold lexLe at h1 h2 ⊢
  omega

theorem sortedScores_sorted (savedScores : List Score) :
    (sortedScores savedScores).Sorted scoreLe := by
  haveI : IsTotal Score scoreLe := ⟨scoreLe_total⟩
  haveI : IsTrans Score scoreLe := ⟨fun _ _ _ => scoreLe_trans⟩
  exact List.sorted_insertionSort scoreLe _

theorem sortedScores_perm (savedScores : List Score) :
    (sortedScores savedScores).Perm (savedScores ++ dummyScores) :=
  List.perm_insertionSort scoreLe _

/-- C22: for every list of saved records the displayed list, the first 10
entries of the saved records and the four dummy records sorted with the
comparator, is sorted by moves ascending and by time ascending for equal
moves, has length `min 10 (saved + 4)`, is a sub-multiset of the pool, makes
up the pool together with the omitted records, and each displayed record
ranks before or level with each omitted one. -/
theorem leaderboard_top_ten (savedScores : List Score) :
    (leaderboard savedScores).Sorted lexLe ∧
      (leaderboard savedScores).length = min 10 (savedScores.length + 4) ∧
      (leaderboard savedScores).Subperm (savedScores ++ dummyScores) ∧
      (leaderboard savedScores ++ omittedScores savedScores).Perm
        (savedScores ++ dummyScores) ∧
      ∀ x ∈ leaderboard savedScores, ∀ y ∈ omittedScores savedScores, lexLe x y := by
  have hs := sortedScores_sorted savedScores
  have hp := sortedScores_perm savedScores
  have hsplit : leaderboard savedScores ++ omittedScores savedScores =
      sortedScores savedScores := List.take_append_drop 10 _
  refine ⟨?_, ?_, ?_, ?_, ?_⟩
  · have h1 : (leaderboard savedScores).Sorted scoreLe :=
      List.Pairwise.sublist (List.take_sublist 10 _) hs
    exact List.Pairwise.imp (fun h => (scoreLe_iff_lexLe _ _).mp h) h1
  · unfold leaderboard
    rw [List.length_take, hp.length_eq, List.length_append]
    rfl
  · exact (List.take_sublist 10 _).subperm.trans hp.subperm
  · rw [hsplit]
    exact hp
  · intro x hx y hy
    rw [← hsplit] at hs
    exact (scoreLe_iff_lexLe x y).mp ((List.pairwise_append.mp hs).2.2 x hx y hy)

/-! ## Victory cleared without Retry -/

set_option maxRecDepth 100000 in
/-- C12 (evaluation of the code at the failing input): start a 3-disk game,
solve it, press Retry, move the disk slider to 4 and back to 3; `isVictory` is
then true in the start menu. A press on Start runs the init effect, whose
`setIsVictory(false)` clears the flag: the victory state is left without
`handleRetry`. -/
theorem start_clears_victory_without_retry :
    SceneReachable false (sceneRun (initialState false) retryThenSlider) ∧
      (sceneRun (initialState false) retryThenSlider).isVictory = true ∧
      SceneEvent.enabled (sceneRun (initialState false) retryThenSlider) .start ∧
      (sceneStep (sceneRun (initialState false) retryThenSlider) .start).isVictory = false ∧
      (sceneStep (sceneRun (initialState false) retryThenSlider) .start).isGameStarted = true :=
  ⟨sceneReachable_run _ SceneReachable.mount (by decide), by decide, by decide, by decide,
    by decide⟩

/-! ## Interval firings between renders -/

theorem runEffects_self (s : GameState) : runEffects s s = s := by
  rw [runEffects_of_same s s rfl rfl rfl]
  simp

/-- A firing right after a render is the firing of `tick`. -/
theorem tick_eq_fire_ofRendered (s : GameState) (t : Tick) :
    tick s t = ((Clocked.ofRendered s).fire t).game := by
  cases t with
  | countdown =>
    unfold tick Clocked.fire Clocked.ofRendered countdownGuard
    cases hg : (!s.isGameStarted || !s.isTimedMode || s.isVictory)
    · simp [runEffects_countdownCallback]
    · simp
  | elapsed =>
    unfold tick Clocked.fire Clocked.ofRendered gameTimerGuard
    cases hg : (s.isGameStarted && !s.isVictory)
    · simp
    · simp [runEffects_timerCallback]

theorem countdownGuard_congr {a b : GameState} (h1 : a.isGameStarted = b.isGameStarted)
    (h2 : a.isTimedMode = b.isTimedMode) (h3 : a.isVictory = b.isVictory) :
    countdownGuard a = countdownGuard b := by
  unfold countdownGuard
  rw [h1, h2, h3]

theorem gameTimerGuard_congr {a b : GameState} (h1 : a.isGameStarted = b.isGameStarted)
    (h3 : a.isVictory = b.isVictory) : gameTimerGuard a = gameTimerGuard b := by
  unfold gameTimerGuard
  rw [h1, h3]

theorem guards_of_stopped {s : GameState} (h : s.isVictory = true ∨ s.isGameStarted = false) :
    countdownGuard s = false ∧ gameTimerGuard s = false := by
  unfold countdownGuard gameTimerGuard
  rcases h with h | h <;> simp [h]

theorem Clocked.consistent_ofRendered (s : GameState) : (Clocked.ofRendered s).consistent :=
  ⟨fun h => h, fun h => h⟩

theorem Clocked.consistent_fire {c : Clocked} (hc : c.consistent) (t : Tick) :
    (c.fire t).consistent := by
  cases t with
  | countdown =>
    unfold Clocked.fire
    cases hs : c.countdownSet with
    | false => simpa [hs] using hc
    | true =>
      simp only [if_true]
      exact ⟨fun _ => hc.1 hs, hc.2⟩
  | elapsed =>
    unfold Clocked.fire
    cases hs : c.gameTimerSet with
    | false => simpa [hs] using hc
    | true =>
      simp only [if_true]
      exact ⟨hc.1, fun _ => hc.2 hs⟩

theorem Clocked.consistent_render {c : Clocked} (hc : c.consistent) : c.render.consistent := by
  constructor
  · intro h
    have h1 : countdownEffect c.rendered (runEffects c.rendered c.game) c.countdownSet = true := h
    show countdownGuard (runEffects c.rendered c.game) = true
    unfold countdownEffect at h1
    split_ifs at h1 with hd
    · exact h1
    · have e1 : (runEffects c.rendered c.game).isGameStarted = c.rendered.isGameStarted := by
        by_contra hne; exact hd (Or.inl hne)
      have e2 : (runEffects c.rendered c.game).isTimedMode = c.rendered.isTimedMode := by
        by_contra hne; exact hd (Or.inr (Or.inl hne))
      have e3 : (runEffects c.rendered c.game).isVictory = c.rendered.isVictory := by
        by_contra hne; exact hd (Or.inr (Or.inr hne))
      rw [countdownGuard_congr e1 e2 e3]
      exact hc.1 h1
  · intro h
    have h1 : gameTimerEffect c.rendered (runEffects c.rendered c.game) c.gameTimerSet = true := h
    show gameTimerGuard (runEffects c.rendered c.game) = true
    unfold gameTimerEffect at h1
    split_ifs at h1 with hd
    · exact h1
    · have e1 : (runEffects c.rendered c.game).isGameStarted = c.rendered.isGameStarted := by
        by_contra hne; exact hd (Or.inl hne)
      have e3 : (runEffects c.rendered c.game).isVictory = c.rendered.isVictory := by
        by_contra hne; exact hd (Or.inr hne)
      rw [gameTimerGuard_congr e1 e3]
      exact hc.2 h1

/-- Every state of the clocked component that is reached from a render by
firings and renders is consistent. -/
theorem Clocked.consistent_run (es : List ClockEvent) :
    ∀ c : Clocked, c.consistent → (c.run es).consistent := by
  induction es with
  | nil => intro c hc; exact hc
  | cons e es ih =>
    intro c hc
    cases e with
    | fire t => exact ih _ (Clocked.consistent_fire hc t)
    | render => exact ih _ (Clocked.consistent_render hc)

theorem Clocked.fire_of_cleared {c : Clocked} (h1 : c.countdownSet = false)
    (h2 : c.gameTimerSet = false) (t : Tick) : c.fire t = c := by
  cases t <;> unfold Clocked.fire
  · simp [h1]
  · simp [h2]

theorem Clocked.render_of_rendered {c : Clocked} (h : c.game = c.rendered) : c.render = c := by
  cases c with
  | mk game rendered countdownSet gameTimerSet =>
    simp only at h
    subst h
    simp [Clocked.render, runEffects_self, countdownEffect, gameTimerEffect]

/-- After a render in a terminal or not-started state both intervals are
cleared. -/
theorem Clocked.render_cleared {c : Clocked} (hc : c.consistent)
    (hstop : c.render.game.isVictory = true ∨ c.render.game.isGameStarted = false) :
    c.render.countdownSet = false ∧ c.render.gameTimerSet = false := by
  have hcons := Clocked.consistent_render hc
  obtain ⟨g1, g2⟩ := guards_of_stopped hstop
  constructor
  · cases h : c.render.countdownSet with
    | false => rfl
    | true =>
      have := hcons.1 h
      have hg : countdownGuard c.render.game = true := this
      rw [g1] at hg
      cases hg
  · cases h : c.render.gameTimerSet with
    | false => rfl
    | true =>
      have := hcons.2 h
      have hg : gameTimerGuard c.render.game = true := this
      rw [g2] at hg
      cases hg

theorem Clocked.run_of_frozen {c : Clocked} (h : c.game = c.rendered)
    (h1 : c.countdownSet = false) (h2 : c.gameTimerSet = false) (es : List ClockEvent) :
    c.run es = c := by
  induction es with
  | nil => rfl
  | cons e es ih =>
    cases e with
    | fire t =>
      show (c.fire t).run es = c
      rw [Clocked.fire_of_cleared h1 h2 t]
      exact ih
    | render =>
      show c.render.run es = c
      rw [Clocked.render_of_rendered h]
      exact ih

set_option maxRecDepth 100000 in
/-- C15 (counterexample): a timed 3-disk game with a 5 second limit and no
moves. In the fifth second the countdown callback ends the session
(`isVictory` and `timeOut` true, countdown 0, elapsed time 4) and clears its
own interval; the game-timer interval is still set, its callback tests no
flag, and its firing before the next render takes the elapsed time from 4
to 5. Only that render clears the game-timer interval. -/
theorem late_game_timer_firing_counts :
    exampleLastSecond.game.isVictory = true ∧ exampleLastSecond.game.timeOut = true ∧
      exampleLastSecond.game.timeLeft = 0 ∧ exampleLastSecond.game.timer = 4 ∧
      exampleLastSecond.countdownSet = false ∧ exampleLastSecond.gameTimerSet = true ∧
      (exampleLastSecond.fire .elapsed).game.timer = 5 ∧
      (exampleLastSecond.fire .elapsed).game ≠ exampleLastSecond.game ∧
      ((exampleLastSecond.fire .elapsed).render).gameTimerSet = false ∧
      ((exampleLastSecond.fire .elapsed).render).game.timer = 5 :=
  ⟨by decide, by decide, by decide, by decide, by decide, by decide, by decide, by decide,
    by decide, by decide⟩

/-- C15 (amended): once the render that follows the session becoming terminal
(or not started) has run its effects, both intervals are cleared: a firing of
either interval is a no-op, and whatever firings and renders follow, the state
stays as it is, so the elapsed-time counter and the countdown keep the values
they have at that render. -/
theorem ticks_ignored_after_render (c : Clocked) (hc : c.consistent)
    (hstop : c.render.game.isVictory = true ∨ c.render.game.isGameStarted = false) :
    c.render.countdownSet = false ∧ c.render.gameTimerSet = false ∧
      (∀ t : Tick, c.render.fire t = c.render) ∧
      (∀ es : List ClockEvent, c.render.run es = c.render) ∧
      ∀ es : List ClockEvent,
        (c.render.run es).game.timer = c.render.game.timer ∧
          (c.render.run es).game.timeLeft = c.render.game.timeLeft := by
  obtain ⟨h1, h2⟩ := Clocked.render_cleared hc hstop
  have hfrozen : ∀ es : List ClockEvent, c.render.run es = c.render :=
    fun es => Clocked.run_of_frozen rfl h1 h2 es
  refine ⟨h1, h2, fun t => Clocked.fire_of_cleared h1 h2 t, hfrozen, fun es => ?_⟩
  rw [hfrozen es]
  exact ⟨rfl, rfl⟩

set_option maxRecDepth 100000 in
/-- Witness for C15 (amended): the timed-out game after the late game-timer
firing; from the next render on the elapsed time stays 5 and the countdown 0. -/
theorem ticks_ignored_after_render_witness :
    (exampleLastSecond.fire .elapsed).consistent ∧
      ((exampleLastSecond.fire .elapsed).render).game.isVictory = true ∧
      ((exampleLastSecond.fire .elapsed).render).gameTimerSet = false ∧
      (((exampleLastSecond.fire .elapsed).render).run
          [.fire .elapsed, .fire .countdown, .render, .fire .elapsed]).game.timer =
        ((exampleLastSecond.fire .elapsed).render).game.timer ∧
      ((exampleLastSecond.fire .elapsed).render).game.timer = 5 ∧
      ((exampleLastSecond.fire .elapsed).render).game.timeLeft = 0 :=
  ⟨by decide, by decide,
    (ticks_ignored_after_render (exampleLastSecond.fire .elapsed) (by decide)
      (Or.inl (by decide))).2.1,
    ((ticks_ignored_after_render (exampleLastSecond.fire .elapsed) (by decide)
      (Or.inl (by decide))).2.2.2.2
        [.fire .elapsed, .fire .countdown, .render, .fire .elapsed]).1,
    by decide, by decide⟩

end Hanoi
